import Mathlib

/-!
Verification of the `precos-diarios` dashboard (Paraná agricultural price
dashboard).  This file gives a shallow embedding, in Lean, of the client-side
data-processing code of the repository and proves the stated properties about
it.  The embedded functions are translated from:

* `src/dashboard/src/hooks/useData.js` (`useData`, `useFilteredData`,
  `useAggregations`) and its variant `src/unnamed/part_003`;
* `src/dashboard/src/hooks/useForecast.js` (static-JSON `useForecast`);
* `src/dashboard/src/utils/format.js` (`formatCurrency`, `formatNumber`,
  `formatCompact`, `calculateVariation`);
* `src/dashboard/src/components/ProductTable.jsx` / `src/unnamed/part_009`
  (`exportCSV`);
* `src/unnamed/part_006` (`bestModel` of `ForecastChart`);
* `src/unnamed/part_008` (`generateSparklineData`).

Modelling conventions: JavaScript numbers are rationals (`ℚ`), a possibly
`null`/`undefined` field is an `Option`, a possibly missing string field is
`""` (both are falsy in JS, and the code only ever tests them for truthiness),
and a JS plain object used as a map is an insertion-ordered association list
(`List (κ × β)`), matching JS enumeration order for non-index keys.  External
library calls (`Intl.NumberFormat`, `Number.prototype.toFixed`) are taken as
function parameters: only the surrounding control flow belongs to this
repository.
-/

/-- A detailed price record as consumed by the dashboard (`detailed.json`
records with short field names): `a` = ano, `m` = mês (`0` models an absent
month field), `c` = categoria, `p` = produto, `u` = unidade (`""` models an
absent field) and `pm` = preço médio (`none` models an absent field). -/
structure SimaRec where
  a : Int
  m : Nat
  c : String
  p : String
  u : String
  pm : Option ℚ
deriving DecidableEq, Repr

/-- JS truthiness of the `pm` field (`if (r.pm)` in the source): an absent
price and a price of `0` are falsy. -/
def pmTruthy (r : SimaRec) : Bool :=
  match r.pm with
  | none => false
  | some v => decide (v ≠ 0)

/-- The numeric value of the `pm` field (`0` when absent; only ever read
behind a `pmTruthy` / `pmPos` test, exactly as in the source). -/
def pmVal (r : SimaRec) : ℚ := r.pm.getD 0

/-- The JS test `r.pm > 0` (false when `pm` is absent). -/
def pmPos (r : SimaRec) : Bool :=
  match r.pm with
  | none => false
  | some v => decide (0 < v)

/-! ### Association lists: JS objects used as maps

A JS plain object with string (or numeric) keys, written to with
`obj[k] = ...` and read with `Object.entries` / `Object.keys`, is modelled as
an insertion-ordered association list.  `updA k f` applies `f` to the current
binding of `k` (`none` when `k` is not yet a key), in place for an existing
key and appended at the end for a new key — exactly the JS enumeration
order for non-index keys. -/

def lookupA {κ β : Type} [DecidableEq κ] (k : κ) : List (κ × β) → Option β
  | [] => none
  | (k1, v) :: rest => if k1 = k then some v else lookupA k rest

def updA {κ β : Type} [DecidableEq κ] (k : κ) (f : Option β → β) :
    List (κ × β) → List (κ × β)
  | [] => [(k, f none)]
  | (k1, v) :: rest =>
    if k1 = k then (k1, f (some v)) :: rest else (k1, v) :: updA k f rest

/-- `Object.keys` of a JS object modelled as an association list. -/
def keysA {κ β : Type} (l : List (κ × β)) : List κ := l.map Prod.fst

/-! ### `format.js`: `calculateVariation` (claim C8) -/

/-- `calculateVariation` from `src/dashboard/src/utils/format.js`:
`if (!previous || previous === 0) return null;
 return ((current - previous) / previous) * 100`.
`previous : Option ℚ` models a possibly `null`/`undefined` argument; a JS
number is falsy exactly when it is `0` (or `NaN`, which `ℚ` does not have). -/
def calculateVariation (current : ℚ) (previous : Option ℚ) : Option ℚ :=
  match previous with
  | none => none
  | some p => if p = 0 then none else some (((current - p) / p) * 100)

/-! ### `format.js`: the number formatters (claim C9) -/

/-- A JavaScript value reaching the formatters: `null`, `undefined`, `NaN` or
an actual (finite) number. -/
inductive JsNum where
  | nullV
  | undefV
  | nanV
  | num (q : ℚ)
deriving DecidableEq

/-- The guard `value === null || value === undefined || isNaN(value)` shared
by the formatters in `src/dashboard/src/utils/format.js`. -/
def isInvalidNum : JsNum → Bool
  | .nullV => true
  | .undefV => true
  | .nanV => true
  | .num _ => false

/-- `formatCurrency` from `format.js`.  The `Intl.NumberFormat('pt-BR', ...)
.format` library call is the parameter `intl` (applied to the value and the
digit count); the guarded fallback is the string literal of the source. -/
def formatCurrency (intl : ℚ → ℕ → String) (value : JsNum) (decimals : ℕ) :
    String :=
  match value with
  | .num q => intl q decimals
  | _ => "R$ 0,00"

/-- `formatNumber` from `format.js`, with the `Intl.NumberFormat` call as the
parameter `fmt`. -/
def formatNumber (fmt : ℚ → ℕ → String) (value : JsNum) (decimals : ℕ) :
    String :=
  match value with
  | .num q => fmt q decimals
  | _ => "0"

/-- JS `s.replace('.', ',')`: replace the first dot only. -/
def jsReplaceDotOnce : List Char → List Char
  | [] => []
  | ch :: rest => if ch = '.' then ',' :: rest else ch :: jsReplaceDotOnce rest

/-- String form of `jsReplaceDotOnce`. -/
def replaceDotComma (s : String) : String := String.mk (jsReplaceDotOnce s.toList)

/-- `formatCompact` from `format.js`.  `Number.prototype.toFixed` is the
parameter `toFixed` (value and digit count); branch structure, thresholds,
suffixes and the `replace('.', ',')` are from the source. -/
def formatCompact (toFixed : ℚ → ℕ → String) (value : JsNum) : String :=
  match value with
  | .num q =>
    if 1000000000 ≤ |q| then
      replaceDotComma (toFixed (q / 1000000000) 1) ++ " bi"
    else if 1000000 ≤ |q| then
      replaceDotComma (toFixed (q / 1000000) 1) ++ " mi"
    else if 1000 ≤ |q| then
      replaceDotComma (toFixed (q / 1000) 1) ++ " mil"
    else toFixed q 0
  | _ => "0"

/-! ### Generic grouping loops

Every grouping loop of the dashboard has the shape
`list.forEach(x => { if (!key(x)) return;
  obj[key(x)] = upd(obj[key(x)] or init, x) })`
for some key extractor and per-record update; `groupFold` is that shape over
an insertion-ordered association list.  `keyOf x = none` models the early
`return` on a falsy key (a key extractor that never refuses uses
`some` everywhere). -/

def groupStep {α κ β : Type} [DecidableEq κ] (keyOf : α → Option κ)
    (init : β) (upd : β → α → β) (acc : List (κ × β)) (x : α) :
    List (κ × β) :=
  match keyOf x with
  | none => acc
  | some k => updA k (fun o => upd (o.getD init) x) acc

def groupFold {α κ β : Type} [DecidableEq κ] (keyOf : α → Option κ)
    (init : β) (upd : β → α → β) (l : List α) : List (κ × β) :=
  l.foldl (groupStep keyOf init upd) []

/-! ### `useAggregations`: grouping by category (claim C1)

Embeds the `byCategory` computation of `useAggregations` in
`src/dashboard/src/hooks/useData.js` (lines 271-301): a `forEach` over the
filtered records that skips records with a falsy `categoria`, counts every
record of the category, and folds sum/min/max only over truthy `pm` values
(`min: Infinity` / `max: -Infinity` sentinels are modelled as `none`),
followed by the finalization pass that turns the accumulator into
`{ media, minimo, maximo, registros, produtos }`. -/

structure CatAcc where
  count : Nat
  sum : ℚ
  catMin : Option ℚ
  catMax : Option ℚ
  products : List String
deriving DecidableEq, Repr

/-- One `Math.min` step against an accumulator whose `Infinity` sentinel is
`none`. -/
def jsMinUpd (o : Option ℚ) (v : ℚ) : Option ℚ :=
  match o with
  | none => some v
  | some m => some (min m v)

/-- One `Math.max` step against an accumulator whose `-Infinity` sentinel is
`none`. -/
def jsMaxUpd (o : Option ℚ) (v : ℚ) : Option ℚ :=
  match o with
  | none => some v
  | some m => some (max m v)

/-- `Set.prototype.add` on an insertion-ordered JS `Set`. -/
def setAdd (s : List String) (x : String) : List String :=
  if x ∈ s then s else s ++ [x]

/-- `{ count: 0, sum: 0, min: Infinity, max: -Infinity, products: new Set() }`. -/
def initCat : CatAcc :=
  { count := 0, sum := 0, catMin := none, catMax := none, products := [] }

/-- The body of the `byCategory` loop for one record (after the `!r.c` skip):
`count++`, `if (r.p) products.add(r.p)`, and under `if (r.pm)` the
sum/min/max updates. -/
def catUpd (s : CatAcc) (r : SimaRec) : CatAcc :=
  let s1 : CatAcc := { s with count := s.count + 1 }
  let s2 : CatAcc :=
    if r.p ≠ "" then { s1 with products := setAdd s1.products r.p } else s1
  if pmTruthy r then
    { s2 with
      sum := s2.sum + pmVal r
      catMin := jsMinUpd s2.catMin (pmVal r)
      catMax := jsMaxUpd s2.catMax (pmVal r) }
  else s2

/-- `if (!r.c) return` followed by indexing `byCategory[r.c]`. -/
def catKeyOf (r : SimaRec) : Option String := if r.c = "" then none else some r.c

def byCategoryAcc (l : List SimaRec) : List (String × CatAcc) :=
  groupFold catKeyOf initCat catUpd l

structure CatStats where
  media : ℚ
  minimo : ℚ
  maximo : ℚ
  registros : Nat
  produtos : Nat
deriving DecidableEq, Repr

/-- The finalization pass over `byCategory`:
`media = count > 0 ? sum / count : 0`, `minimo = min === Infinity ? 0 : min`,
`maximo = max === -Infinity ? 0 : max`, `registros = count`,
`produtos = products.size`. -/
def finalizeCat (s : CatAcc) : CatStats :=
  { media := if 0 < s.count then s.sum / (s.count : ℚ) else 0,
    minimo := s.catMin.getD 0,
    maximo := s.catMax.getD 0,
    registros := s.count,
    produtos := s.products.length }

/-- The `byCategory` value returned by `useAggregations`. -/
def byCategory (l : List SimaRec) : List (String × CatStats) :=
  (byCategoryAcc l).map (fun kv => (kv.1, finalizeCat kv.2))

/-- Claim-side: the records of the input carrying categoria `c`. -/
def catRecs (c : String) (l : List SimaRec) : List SimaRec :=
  l.filter (fun r => decide (r.c = c))

/-- Claim-side: the truthy `pm` values of the records of categoria `c`. -/
def catPms (c : String) (l : List SimaRec) : List ℚ :=
  ((catRecs c l).filter pmTruthy).map pmVal

/-- First record of the concrete list used by the C1 witness. -/
def c1RecW : SimaRec :=
  { a := 2020, m := 1, c := "Graos", p := "Soja", u := "sc", pm := some 10 }

/-- Concrete record list used by the C1 witness: two `Graos` records (one
without a price) and one record with an empty categoria. -/
def c1ListW : List SimaRec :=
  [c1RecW,
   { a := 2020, m := 2, c := "Graos", p := "Milho", u := "sc", pm := none },
   { a := 2021, m := 1, c := "", p := "X", u := "", pm := some 5 }]

/-! ### `useFilteredData` (claim C4)

Embeds `useFilteredData` from `src/dashboard/src/hooks/useData.js`
(lines 112-138): the `!data?.detailed?.records` guard followed by four
sequential conditional `filter` passes (year range, category, product).
The `part_003` variant adds a fifth `regional` filter between category and
product; the `App.jsx` filter state has no `regional` key, so that filter is
never active there. -/

/-- The `filters` state object of `App.jsx`:
`{ anoMin: null, anoMax: null, categoria: null, produto: null }`. -/
structure UiFilters where
  anoMin : Option Int
  anoMax : Option Int
  categoria : Option String
  produto : Option String
deriving DecidableEq, Repr

/-- JS truthiness of an optional numeric filter value. -/
def activeNum : Option Int → Bool
  | none => false
  | some v => decide (v ≠ 0)

/-- JS truthiness of an optional string filter value. -/
def activeStr : Option String → Bool
  | none => false
  | some s => decide (s ≠ "")

/-- The `detailed.json` document as held in the loaded data object, with its
`records` array (`none` models a missing array). -/
structure DetailedDoc where
  records : Option (List SimaRec)

/-- The loaded `data` object, as far as `useFilteredData` reads it. -/
structure DataDoc where
  detailed : Option DetailedDoc

/-- `if (filters.anoMin) records = records.filter(r => r.a >= filters.anoMin)`. -/
def filterAnoMin (o : Option Int) (l : List SimaRec) : List SimaRec :=
  match o with
  | none => l
  | some v => if v ≠ 0 then l.filter (fun r => decide (v ≤ r.a)) else l

/-- `if (filters.anoMax) records = records.filter(r => r.a <= filters.anoMax)`. -/
def filterAnoMax (o : Option Int) (l : List SimaRec) : List SimaRec :=
  match o with
  | none => l
  | some v => if v ≠ 0 then l.filter (fun r => decide (r.a ≤ v)) else l

/-- `if (filters.categoria) records = records.filter(r => r.c === filters.categoria)`. -/
def filterCategoria (o : Option String) (l : List SimaRec) : List SimaRec :=
  match o with
  | none => l
  | some s => if s ≠ "" then l.filter (fun r => decide (r.c = s)) else l

/-- `if (filters.produto) records = records.filter(r => r.p === filters.produto)`. -/
def filterProduto (o : Option String) (l : List SimaRec) : List SimaRec :=
  match o with
  | none => l
  | some s => if s ≠ "" then l.filter (fun r => decide (r.p = s)) else l

/-- `useFilteredData(data, filters)`. -/
def useFilteredData (data : Option DataDoc) (filters : UiFilters) :
    List SimaRec :=
  match data with
  | none => []
  | some dd =>
    match dd.detailed with
    | none => []
    | some det =>
      match det.records with
      | none => []
      | some records =>
        filterProduto filters.produto
          (filterCategoria filters.categoria
            (filterAnoMax filters.anoMax
              (filterAnoMin filters.anoMin records)))

/-- Claim-side predicate: the record satisfies every active filter of the
filter object. -/
def matchesFilters (f : UiFilters) (r : SimaRec) : Bool :=
  (!activeNum f.anoMin || decide (f.anoMin.getD 0 ≤ r.a)) &&
  (!activeNum f.anoMax || decide (r.a ≤ f.anoMax.getD 0)) &&
  (!activeStr f.categoria || decide (r.c = f.categoria.getD "")) &&
  (!activeStr f.produto || decide (r.p = f.produto.getD ""))

/-! ### Static-JSON `useForecast`: horizon trimming (claim C10)

Embeds the trimming step of the static-JSON `useForecast` hook in
`src/dashboard/src/hooks/useForecast.js` (lines 130-141):
`const months = Math.max(1, Math.round(horizonte / 30))`, then a rebuild of
`result.modelos` where each model is spread-copied with
`previsoes: (model.previsoes || []).slice(0, months)`.  The forecast points
(`π`), the other model fields (`ω`) and the other result fields (`σ`) are
type parameters: the spread copies them without inspection. -/

/-- JS `Math.round`: round half toward positive infinity. -/
def jsRound (q : ℚ) : Int := Int.floor (q + 1 / 2)

/-- `Math.max(1, Math.round(horizonte / 30))` as a natural number. -/
def trimMonths (horizonte : ℚ) : ℕ := max 1 (jsRound (horizonte / 30)).toNat

/-- One model entry of `result.modelos`: the `previsoes` list plus all other
fields, which the hook copies with `{ ...model }`. -/
structure ForecastModel (π ω : Type) where
  previsoes : List π
  other : ω
deriving DecidableEq

/-- A successfully loaded forecast document: the `modelos` map plus all other
fields, which the hook copies with `{ ...result }`. -/
structure ForecastResult (π ω σ : Type) where
  modelos : List (String × ForecastModel π ω)
  other : σ
deriving DecidableEq

/-- The trimming performed by the static-JSON `useForecast` before
`setData`. -/
def trimForecast {π ω σ : Type} (horizonte : ℚ)
    (result : ForecastResult π ω σ) : ForecastResult π ω σ :=
  { modelos := result.modelos.map (fun kv =>
      (kv.1,
        { previsoes := kv.2.previsoes.take (trimMonths horizonte),
          other := kv.2.other })),
    other := result.other }

/-! ### The `useData` loader and the `App` error screen (claim C3)

Embeds `loadData` of the `useData` hook
(`src/dashboard/src/hooks/useData.js`, lines 9-59) and the render branching
of `App.jsx` (lines 71-88).  The four parsed JSON documents are abstracted by
a type `J`; `normalizeFilters(filters, aggregated, detailed)` is the
parameter `normalize`, since its body only shuffles `J`-values. -/

/-- An HTTP response as seen by the loader: the `ok` status flag and the
outcome of `r.json()` (`Except.error` with the rejection message for a body
that fails to parse). -/
structure HttpResponse (J : Type) where
  ok : Bool
  body : Except String J

/-- `fetch(DATA_BASE_PATH + name).then(r => {
  if (!r.ok) throw new Error('Failed to load ' + name); return r.json() })`. -/
def fetchJson {J : Type} (name : String) (r : HttpResponse J) :
    Except String J :=
  if r.ok then r.body else Except.error ("Failed to load " ++ name)

/-- `Promise.all` over the four fetches: succeeds with the quadruple iff all
four succeed, otherwise rejects with the failure message of one of them
(resolution order is not observable in this synchronous model; argument
order stands in for it). -/
def promiseAll4 {E A B C D : Type} :
    Except E A → Except E B → Except E C → Except E D →
      Except E (A × B × C × D)
  | .ok a, .ok b, .ok c, .ok d => .ok (a, b, c, d)
  | .error e, _, _, _ => .error e
  | .ok _, .error e, _, _ => .error e
  | .ok _, .ok _, .error e, _ => .error e
  | .ok _, .ok _, .ok _, .error e => .error e

/-- The data object assembled by `setData` on success. -/
structure LoadedData (J : Type) where
  aggregated : J
  detailed : J
  timeseries : J
  filters : J
deriving DecidableEq

/-- The `useData` hook state after `loadData` has settled. -/
structure LoaderState (J : Type) where
  data : Option (LoadedData J)
  error : Option String
  loading : Bool
deriving DecidableEq

/-- The four JSON documents requested by `useData`. -/
def dataFiles : List String :=
  ["aggregated.json", "detailed.json", "timeseries.json", "filters.json"]

/-- The body of `loadData` after the four fetches settled: either build the
data object (with normalized filters) or catch the failure into `error`;
`loading` ends up `false` either way (the `finally`). -/
def loadDataCore {J : Type} (normalize : J → J → J → J)
    (r1 r2 r3 r4 : Except String J) : LoaderState J :=
  match promiseAll4 r1 r2 r3 r4 with
  | .ok (a, d, t, f) =>
    { data := some
        { aggregated := a, detailed := d, timeseries := t,
          filters := normalize f a d },
      error := none, loading := false }
  | .error e => { data := none, error := some e, loading := false }

/-- `loadData`: fetch the four documents and settle the hook state. -/
def loadData {J : Type} (normalize : J → J → J → J)
    (env : String → HttpResponse J) : LoaderState J :=
  loadDataCore normalize
    (fetchJson "aggregated.json" (env "aggregated.json"))
    (fetchJson "detailed.json" (env "detailed.json"))
    (fetchJson "timeseries.json" (env "timeseries.json"))
    (fetchJson "filters.json" (env "filters.json"))

/-- What the `App` component renders. -/
inductive Screen where
  | loadingScreen
  | errorScreen (title : String)
  | dashboard
deriving DecidableEq, Repr

/-- The render branching of `App.jsx`: `if (loading)` the loading screen,
`else if (error)` (JS truthiness: a non-empty string) the error screen headed
`Erro ao carregar dados`, else the dashboard. -/
def renderApp {J : Type} (st : LoaderState J) : Screen :=
  if st.loading then .loadingScreen
  else
    match st.error with
    | some e =>
      if e = "" then .dashboard else .errorScreen "Erro ao carregar dados"
    | none => .dashboard

/-- A settled fetch succeeded. -/
def exceptOk {E A : Type} : Except E A → Bool
  | .ok _ => true
  | .error _ => false

/-! ### `ForecastChart` best model (claim C7)

Embeds the `bestModel` memo of `ForecastChart` in `src/unnamed/part_006`
(lines 256-268): iterate `modelKeys` in object order with
`let best = null; let bestR2 = -Infinity`, selecting a key exactly when its
`modelos[key]?.metricas?.r2` is non-null and strictly exceeds the best so
far.  `-Infinity` is modelled as a `none` accumulator (every number exceeds
it, as in JS). -/

/-- The `metricas` object of one forecast model as read by the chart
(only `r2` is consulted there; `none` models null / missing). -/
structure Metricas where
  r2 : Option ℚ
deriving DecidableEq, Repr

/-- One entry of the `modelos` map as read by `ForecastChart`. -/
structure ChartModel where
  metricas : Option Metricas
deriving DecidableEq, Repr

/-- The optional chain `modelos[key]?.metricas?.r2`. -/
def r2Of (m : ChartModel) : Option ℚ := m.metricas.bind (fun mm => mm.r2)

/-- The `for (const key of modelKeys)` loop of the `bestModel` memo. -/
def bestModelGo : List (String × ChartModel) → Option (String × ℚ) →
    Option (String × ℚ)
  | [], acc => acc
  | (k, m) :: rest, acc =>
    match r2Of m with
    | none => bestModelGo rest acc
    | some v =>
      match acc with
      | none => bestModelGo rest (some (k, v))
      | some (bk, bv) =>
        if bv < v then bestModelGo rest (some (k, v))
        else bestModelGo rest (some (bk, bv))

/-- `bestModel` of `ForecastChart`. -/
def bestModel (modelos : List (String × ChartModel)) : Option String :=
  (bestModelGo modelos none).map Prod.fst

/-- Concrete `modelos` map used by the C7 witness: a null-`r2` model followed
by two tied numeric models. -/
def c7ModelosW : List (String × ChartModel) :=
  [("arima", { metricas := none }),
   ("linear", { metricas := some { r2 := some 1 } }),
   ("prophet", { metricas := some { r2 := some 1 } })]

/-! ### CSV export (claim C2)

Embeds the `exportCSV` functions of
`src/dashboard/src/components/ProductTable.jsx` (lines 104-135) and
`src/unnamed/part_009` / `ForecastTable` (lines 46-68).  Both build the file
as `[headers, ...rows].map(row => row.join(';')).join('\n')` — a plain join
with no quoting or escaping of cell contents.  Strings are `List Char` so
that joining and splitting are structural. -/

/-- `Array.prototype.join(sep)` over cells (for a one-character separator),
as used by `row.join(';')` and by the final `join('\n')`. -/
def joinSep (sep : Char) : List (List Char) → List Char
  | [] => []
  | [c] => c
  | c :: rest => c ++ sep :: joinSep sep rest

/-- Splitting on a separator character: the claim-side parse of the produced
CSV back into cells. -/
def splitSep (sep : Char) : List Char → List (List Char)
  | [] => [[]]
  | ch :: rest =>
    if ch = sep then [] :: splitSep sep rest
    else
      match splitSep sep rest with
      | [] => [[ch]]
      | t :: ts => (ch :: t) :: ts

/-- `const csv = [headers, ...rows].map(row => row.join(';')).join('\n')`. -/
def exportCSVtext (headers : List (List Char))
    (rows : List (List (List Char))) : List Char :=
  joinSep '\n' ((headers :: rows).map (joinSep ';'))

/-- Claim-side parse of the produced CSV with the `';'` delimiter: split the
file into lines and each line into cells. -/
def parseCSVtext (s : List Char) : List (List (List Char)) :=
  (splitSep '\n' s).map (splitSep ';')

/-! ### `useAggregations` top products (claims C5)

Embeds the `topProducts` computation of `useAggregations` in
`src/dashboard/src/hooks/useData.js` (lines 221-268) — per-product
`productStats` (count, sum of truthy `pm`, categoria of the first record,
first truthy unidade) and `productByYear` (per-year sum/count of truthy `pm`)
fed into entries `{produto, categoria, unidade, media, registros, variacao}`
sorted by `(a, b) => b.registros - a.registros` — and the `part_003` variant
(lines 137-145), which tracks only count/sum/categoria and appends
`.slice(0, 20)`.  (The `sparklineData[produto]` side assignment inside the
same `map` writes to a separate output object and is embedded with claim C6's
`generateSparklineData`.) -/

/-- Per-product accumulator (`productStats[r.p]`).  Creation —
`{ count: 0, sum: 0, categoria: r.c, unidade: r.u || null }` — is the
`count = 0` state, so `categoria` is the first record's and `unidade` the
first truthy one (`""` models null). -/
structure ProdAcc where
  count : Nat
  sum : ℚ
  categoria : String
  unidade : String
deriving DecidableEq, Repr

def initProd : ProdAcc :=
  { count := 0, sum := 0, categoria := "", unidade := "" }

/-- One record's effect on `productStats[r.p]`. -/
def prodUpd (s : ProdAcc) (r : SimaRec) : ProdAcc :=
  { count := s.count + 1,
    sum := if pmTruthy r then s.sum + pmVal r else s.sum,
    categoria := if s.count = 0 then r.c else s.categoria,
    unidade := if s.unidade = "" ∧ r.u ≠ "" then r.u else s.unidade }

/-- `if (!r.p) return` followed by indexing `productStats[r.p]`. -/
def prodKeyOf (r : SimaRec) : Option String := if r.p = "" then none else some r.p

def productStats (l : List SimaRec) : List (String × ProdAcc) :=
  groupFold prodKeyOf initProd prodUpd l

/-- A `{ sum, count }` accumulator (used per year and, in claim C6, per
month). -/
structure SumCount where
  sum : ℚ
  count : Nat
deriving DecidableEq, Repr

/-- One record's effect on `productByYear[r.p]` (only truthy `pm` records
contribute). -/
def yearUpd (inner : List (Int × SumCount)) (r : SimaRec) :
    List (Int × SumCount) :=
  if pmTruthy r then
    updA r.a (fun o =>
      { sum := (o.getD ⟨0, 0⟩).sum + pmVal r,
        count := (o.getD ⟨0, 0⟩).count + 1 }) inner
  else inner

def productByYear (l : List SimaRec) :
    List (String × List (Int × SumCount)) :=
  groupFold prodKeyOf ([] : List (Int × SumCount)) yearUpd l

/-- The per-product YoY `variacao`: the years with data sorted descending
(`sort((a, b) => b - a)`), the two most recent compared, `null` unless both
have records and the previous average is positive. -/
def variacaoOf (inner : List (Int × SumCount)) : Option ℚ :=
  match (keysA inner).mergeSort (fun x y => decide (y ≤ x)) with
  | cur :: prev :: _ =>
    match lookupA cur inner, lookupA prev inner with
    | some cs, some ps =>
      if 0 < cs.count ∧ 0 < ps.count then
        if 0 < ps.sum / (ps.count : ℚ) then
          some (((cs.sum / (cs.count : ℚ) - ps.sum / (ps.count : ℚ)) /
            (ps.sum / (ps.count : ℚ))) * 100)
        else none
      else none
    | _, _ => none
  | _ => none

/-- One entry of the `topProducts` array (useData.js variant). -/
structure ProdEntry where
  produto : String
  categoria : String
  unidade : String
  media : ℚ
  registros : Nat
  variacao : Option ℚ
deriving DecidableEq, Repr

/-- The `map` body of `Object.entries(productStats).map(...)`. -/
def mkProdEntry (byYear : List (String × List (Int × SumCount)))
    (kv : String × ProdAcc) : ProdEntry :=
  { produto := kv.1, categoria := kv.2.categoria, unidade := kv.2.unidade,
    media := if 0 < kv.2.count then kv.2.sum / (kv.2.count : ℚ) else 0,
    registros := kv.2.count,
    variacao := variacaoOf ((lookupA kv.1 byYear).getD []) }

/-- `topProducts` of `useAggregations` (useData.js): entries sorted by
descending `registros` (JS `sort` is stable; `mergeSort` matches). -/
def topProducts (l : List SimaRec) : List ProdEntry :=
  ((productStats l).map (mkProdEntry (productByYear l))).mergeSort
    (fun e1 e2 => decide (e2.registros ≤ e1.registros))

/-- Per-product accumulator of the `part_003` variant
(`{ count: 0, sum: 0, categoria: r.c }`). -/
structure P3ProdAcc where
  count : Nat
  sum : ℚ
  categoria : String
deriving DecidableEq, Repr

def initP3 : P3ProdAcc := { count := 0, sum := 0, categoria := "" }

def p3Upd (s : P3ProdAcc) (r : SimaRec) : P3ProdAcc :=
  { count := s.count + 1,
    sum := if pmTruthy r then s.sum + pmVal r else s.sum,
    categoria := if s.count = 0 then r.c else s.categoria }

def p3Stats (l : List SimaRec) : List (String × P3ProdAcc) :=
  groupFold prodKeyOf initP3 p3Upd l

/-- One entry of the `part_003` `topProducts` array. -/
structure P3Entry where
  produto : String
  categoria : String
  media : ℚ
  registros : Nat
deriving DecidableEq, Repr

def mkP3Entry (kv : String × P3ProdAcc) : P3Entry :=
  { produto := kv.1, categoria := kv.2.categoria,
    media := if 0 < kv.2.count then kv.2.sum / (kv.2.count : ℚ) else 0,
    registros := kv.2.count }

/-- `topProducts` of the `part_003` variant: sorted entries, then
`.slice(0, 20)`. -/
def topProductsP3 (l : List SimaRec) : List P3Entry :=
  (((p3Stats l).map mkP3Entry).mergeSort
    (fun e1 e2 => decide (e2.registros ≤ e1.registros))).take 20

/-- Claim-side: the records of the input carrying produto `p`. -/
def prodRecs (p : String) (l : List SimaRec) : List SimaRec :=
  l.filter (fun r => decide (r.p = p))

/-- Claim-side: the truthy `pm` values of the records of produto `p`. -/
def prodPms (p : String) (l : List SimaRec) : List ℚ :=
  ((prodRecs p l).filter pmTruthy).map pmVal

/-- First record of the concrete list used by the C5 witness. -/
def c5Rec1W : SimaRec :=
  { a := 2020, m := 1, c := "Graos", p := "Soja", u := "sc", pm := some 10 }

/-- Concrete record list used by the C5 witness: two `Soja` records (one
priceless) and one `Milho` record. -/
def c5ListW : List SimaRec :=
  [c5Rec1W,
   { a := 2021, m := 1, c := "Graos", p := "Soja", u := "sc", pm := none },
   { a := 2020, m := 1, c := "Graos", p := "Milho", u := "sc", pm := some 4 }]

/-! ### `generateSparklineData` (claim C6)

Embeds `generateSparklineData(records, productName, limit = 12)` from
`src/unnamed/part_008` (lines 84-117): guard on missing `records` /
`productName`, filter to the product's records with `pm > 0`, stable sort by
year and month, group by the `${r.a}-${String(r.m || 1).padStart(2, '0')}`
key, average each month, sort the points by period string and keep
`slice(-limit)`. -/

/-- `String(n).padStart(2, '0')`. -/
def pad2 (n : Nat) : String :=
  let s := toString n
  if s.length < 2 then "0" ++ s else s

/-- The month grouping key `${r.a}-${String(r.m || 1).padStart(2, '0')}`. -/
def monthKey (r : SimaRec) : String :=
  toString r.a ++ "-" ++ pad2 (if r.m = 0 then 1 else r.m)

/-- One point of the sparkline series (`{ period, value }`). -/
structure SparkPoint where
  period : String
  value : ℚ
deriving DecidableEq, Repr

/-- JS `arr.slice(-n)`: the last `n` elements — except that `slice(-0)` is
`slice(0)`, the whole array. -/
def jsSliceNeg {α : Type} (l : List α) (n : Nat) : List α :=
  if n = 0 then l else l.drop (l.length - n)

/-- `records.filter(r => r.p === productName && r.pm > 0)`. -/
def sparkSel (name : String) (l : List SimaRec) : List SimaRec :=
  l.filter (fun r => decide (r.p = name) && pmPos r)

/-- The filtered records sorted by year then month
(`a.a !== b.a ? a.a - b.a : (a.m || 0) - (b.m || 0)`; JS `sort` is stable,
as is `mergeSort`). -/
def sparkRecords (recs : List SimaRec) (name : String) : List SimaRec :=
  (sparkSel name recs).mergeSort
    (fun x y => decide (x.a < y.a ∨ (x.a = y.a ∧ x.m ≤ y.m)))

/-- Grouping key of the `monthlyData` loop (never refused). -/
def monthKeyOf (r : SimaRec) : Option String := some (monthKey r)

/-- One record's effect on `monthlyData[key]`. -/
def monthUpd (s : SumCount) (r : SimaRec) : SumCount :=
  { sum := s.sum + pmVal r, count := s.count + 1 }

/-- The `monthlyData` object. -/
def monthlyData (recs : List SimaRec) (name : String) :
    List (String × SumCount) :=
  groupFold monthKeyOf (⟨0, 0⟩ : SumCount) monthUpd (sparkRecords recs name)

/-- The unsorted per-month entries
(`Object.entries(monthlyData).map(([period, stats]) =>
  ({ period, value: stats.sum / stats.count }))`). -/
def sparkEntries (recs : List SimaRec) (name : String) : List SparkPoint :=
  (monthlyData recs name).map
    (fun kv => { period := kv.1, value := kv.2.sum / (kv.2.count : ℚ) })

/-- The per-month series before the final `slice(-limit)`: the entries sorted
by `(a, b) => a.period.localeCompare(b.period)` (plain string order on the
digit-and-dash keys). -/
def sparkPoints (recs : List SimaRec) (name : String) : List SparkPoint :=
  (sparkEntries recs name).mergeSort (fun x y => decide (x.period ≤ y.period))

/-- `generateSparklineData`. -/
def generateSparklineData (records : Option (List SimaRec)) (name : String)
    (limit : Nat) : List SparkPoint :=
  match records with
  | none => []
  | some recs =>
    if name = "" then []
    else jsSliceNeg (sparkPoints recs name) limit

/-- Claim-side: the `pm` values of the positive-price records of product
`name` falling in month `key`. -/
def monthPms (name key : String) (l : List SimaRec) : List ℚ :=
  ((sparkSel name l).filter (fun r => decide (monthKey r = key))).map pmVal

/-- Concrete record used by the C6 counterexample and witness. -/
def c6RecW : SimaRec :=
  { a := 2020, m := 1, c := "Graos", p := "Soja", u := "sc", pm := some 5 }

theorem lookupA_updA_self {κ β : Type} [DecidableEq κ] (k : κ)
    (f : Option β → β) (l : List (κ × β)) :
    lookupA k (updA k f l) = some (f (lookupA k l)) := by
  induction l with
  | nil => simp [updA, lookupA]
  | cons hd tl ih =>
    obtain ⟨k1, v⟩ := hd
    by_cases h : k1 = k
    · subst h; simp [updA, lookupA]
    · simp [updA, lookupA, h, ih]

theorem lookupA_updA_ne {κ β : Type} [DecidableEq κ] {k k1 : κ}
    (f : Option β → β) (l : List (κ × β)) (h : k1 ≠ k) :
    lookupA k1 (updA k f l) = lookupA k1 l := by
  have hk : ¬(k = k1) := fun he => h he.symm
  induction l with
  | nil => simp [updA, lookupA, hk]
  | cons hd tl ih =>
    obtain ⟨k2, v⟩ := hd
    by_cases h2 : k2 = k
    · subst h2
      simp [updA, lookupA, hk, fun he : k2 = k1 => h he.symm]
    · simp [updA, lookupA, h2, ih]

theorem mem_keysA_iff_lookupA {κ β : Type} [DecidableEq κ] (k : κ)
    (l : List (κ × β)) : k ∈ keysA l ↔ (lookupA k l).isSome := by
  induction l with
  | nil => simp [keysA, lookupA]
  | cons hd tl ih =>
    obtain ⟨k1, v⟩ := hd
    by_cases h : k1 = k
    · subst h; simp [keysA, lookupA]
    · have hk : ¬(k = k1) := fun he => h he.symm
      simp only [keysA, List.map_cons, List.mem_cons, lookupA, if_neg h, hk,
        false_or]
      simpa [keysA] using ih

theorem keysA_updA_of_mem {κ β : Type} [DecidableEq κ] {k : κ}
    (f : Option β → β) {l : List (κ × β)} (h : k ∈ keysA l) :
    keysA (updA k f l) = keysA l := by
  induction l with
  | nil => simp [keysA] at h
  | cons hd tl ih =>
    obtain ⟨k1, v⟩ := hd
    by_cases h1 : k1 = k
    · subst h1; simp [updA, keysA]
    · have h2 : k ∈ keysA tl := by
        rcases (by simpa [keysA] using h : k = k1 ∨ k ∈ List.map Prod.fst tl) with
          he | hm
        · exact absurd he.symm h1
        · simpa [keysA] using hm
      simp only [updA, if_neg h1, keysA, List.map_cons]
      rw [show List.map Prod.fst (updA k f tl) = keysA (updA k f tl) from rfl,
        ih h2]
      simp [keysA]

theorem keysA_updA_of_not_mem {κ β : Type} [DecidableEq κ] {k : κ}
    (f : Option β → β) {l : List (κ × β)} (h : k ∉ keysA l) :
    keysA (updA k f l) = keysA l ++ [k] := by
  induction l with
  | nil => simp [updA, keysA]
  | cons hd tl ih =>
    obtain ⟨k1, v⟩ := hd
    have h1 : ¬(k = k1) ∧ k ∉ keysA tl := by
      constructor
      · intro he; exact h (by simp [keysA, he])
      · intro hm; exact h (by simp [keysA]; exact Or.inr (by simpa [keysA] using hm))
    have hk1 : ¬(k1 = k) := fun he => h1.1 he.symm
    simp only [updA, if_neg hk1, keysA, List.map_cons, List.cons_append,
      List.cons.injEq, true_and]
    rw [show List.map Prod.fst (updA k f tl) = keysA (updA k f tl) from rfl,
      ih h1.2]
    simp [keysA]

theorem lookupA_eq_of_mem {κ β : Type} [DecidableEq κ] {k : κ} {v : β}
    {l : List (κ × β)} (hnd : (keysA l).Nodup) (h : (k, v) ∈ l) :
    lookupA k l = some v := by
  induction l with
  | nil => simp at h
  | cons hd tl ih =>
    obtain ⟨k1, v1⟩ := hd
    have hnd2 : k1 ∉ keysA tl ∧ (keysA tl).Nodup := by
      simpa [keysA, List.nodup_cons] using hnd
    rcases List.mem_cons.mp h with h1 | h1
    · cases h1
      simp [lookupA]
    · have hmem : k ∈ keysA tl := by
        simpa [keysA] using List.mem_map_of_mem Prod.fst h1
      have hk : ¬(k1 = k) := fun he => hnd2.1 (he ▸ hmem)
      simp [lookupA, hk, ih hnd2.2 h1]

/-- C8: `calculateVariation` never divides by zero: it returns `null` for every
falsy `previous` (absent or `0`), and otherwise returns
`((current - previous) / previous) * 100`; the division is only reached with
`previous ≠ 0`. -/
theorem calculateVariation_safe (current : ℚ) (previous : Option ℚ) :
    ((previous = none ∨ previous = some 0) →
      calculateVariation current previous = none) ∧
    (∀ p : ℚ, previous = some p → p ≠ 0 →
      calculateVariation current previous = some (((current - p) / p) * 100)) := by
  constructor
  · rintro (h | h) <;> subst h <;> simp [calculateVariation]
  · rintro p rfl hp
    simp [calculateVariation, hp]

/-- Witness for C8 at the concrete inputs `(3, some 2)` and `(3, some 0)`. -/
theorem calculateVariation_safe_witness :
    calculateVariation 3 (some 0) = none ∧ calculateVariation 3 (some 2) = some 50 := by
  refine ⟨(calculateVariation_safe 3 (some 0)).1 (Or.inr rfl), ?_⟩
  have h := (calculateVariation_safe 3 (some 2)).2 2 rfl (by norm_num)
  rw [h]; norm_num

/-- C9: the number formatters are total on invalid input: for every `null`,
`undefined` or `NaN` input, `formatCurrency` returns `"R$ 0,00"` and
`formatNumber` / `formatCompact` return `"0"`, for every rendering backend. -/
theorem formatters_total_on_invalid (intl fmt toFixed : ℚ → ℕ → String)
    (decimals : ℕ) (value : JsNum)
    (h : value = .nullV ∨ value = .undefV ∨ value = .nanV) :
    formatCurrency intl value decimals = "R$ 0,00" ∧
    formatNumber fmt value decimals = "0" ∧
    formatCompact toFixed value = "0" := by
  rcases h with h | h | h <;> subst h <;>
    exact ⟨rfl, rfl, rfl⟩

/-- Witness for C9 at the concrete input `NaN` (with a concrete backend). -/
theorem formatters_total_on_invalid_witness :
    formatCurrency (fun _ _ => "x") JsNum.nanV 2 = "R$ 0,00" ∧
    formatNumber (fun _ _ => "x") JsNum.nanV 0 = "0" ∧
    formatCompact (fun _ _ => "x") JsNum.nanV = "0" :=
  formatters_total_on_invalid (fun _ _ => "x") (fun _ _ => "x") (fun _ _ => "x")
    2 JsNum.nanV (Or.inr (Or.inr rfl))

theorem lookupA_groupStep {α κ β : Type} [DecidableEq κ]
    (keyOf : α → Option κ) (init : β) (upd : β → α → β) (k : κ)
    (acc : List (κ × β)) (x : α) :
    lookupA k (groupStep keyOf init upd acc x) =
      if keyOf x = some k then some (upd ((lookupA k acc).getD init) x)
      else lookupA k acc := by
  unfold groupStep
  cases hx : keyOf x with
  | none => simp
  | some k2 =>
    by_cases hk : k2 = k
    · subst hk
      simp [lookupA_updA_self]
    · have hne : k ≠ k2 := fun he => hk he.symm
      rw [lookupA_updA_ne _ _ hne]
      simp [hk]

theorem lookupA_foldl_groupStep {α κ β : Type} [DecidableEq κ]
    (keyOf : α → Option κ) (init : β) (upd : β → α → β) (k : κ) :
    ∀ (l : List α) (acc : List (κ × β)),
      lookupA k (List.foldl (groupStep keyOf init upd) acc l) =
        List.foldl
          (fun o x => if keyOf x = some k then some (upd (o.getD init) x) else o)
          (lookupA k acc) l := by
  intro l
  induction l with
  | nil => intro acc; rfl
  | cons x l ih =>
    intro acc
    simp only [List.foldl_cons]
    rw [ih, lookupA_groupStep]

theorem optFold_groupStep_some {α κ β : Type} [DecidableEq κ]
    (keyOf : α → Option κ) (init : β) (upd : β → α → β) (k : κ) :
    ∀ (l : List α) (s : β),
      List.foldl
          (fun o x => if keyOf x = some k then some (upd (o.getD init) x) else o)
          (some s) l =
        some (List.foldl upd s (l.filter (fun x => decide (keyOf x = some k)))) := by
  intro l
  induction l with
  | nil => intro s; rfl
  | cons x l ih =>
    intro s
    by_cases hx : keyOf x = some k
    · simp [hx, List.filter_cons, ih]
    · simp [hx, List.filter_cons, ih]

theorem optFold_groupStep_none {α κ β : Type} [DecidableEq κ]
    (keyOf : α → Option κ) (init : β) (upd : β → α → β) (k : κ)
    (l : List α) :
    List.foldl
        (fun o x => if keyOf x = some k then some (upd (o.getD init) x) else o)
        none l =
      match l.filter (fun x => decide (keyOf x = some k)) with
      | [] => none
      | x :: rest => some (List.foldl upd (upd init x) rest) := by
  induction l with
  | nil => rfl
  | cons x l ih =>
    by_cases hx : keyOf x = some k
    · simp [hx, List.filter_cons, optFold_groupStep_some]
    · simp [hx, List.filter_cons, ih]

/-- Closed form of the JS object built by a grouping loop: the entry of key
`k` is the per-record update folded over exactly the records selected for
`k`, in list order, starting from the first such record applied to `init`. -/
theorem lookupA_groupFold {α κ β : Type} [DecidableEq κ]
    (keyOf : α → Option κ) (init : β) (upd : β → α → β) (k : κ)
    (l : List α) :
    lookupA k (groupFold keyOf init upd l) =
      match l.filter (fun x => decide (keyOf x = some k)) with
      | [] => none
      | x :: rest => some (List.foldl upd (upd init x) rest) := by
  unfold groupFold
  rw [lookupA_foldl_groupStep]
  simpa [lookupA] using optFold_groupStep_none keyOf init upd k l

theorem mem_keysA_updA {κ β : Type} [DecidableEq κ] (k k2 : κ)
    (f : Option β → β) (acc : List (κ × β)) :
    k ∈ keysA (updA k2 f acc) ↔ k ∈ keysA acc ∨ k = k2 := by
  by_cases hm : k2 ∈ keysA acc
  · rw [keysA_updA_of_mem f hm]
    constructor
    · exact Or.inl
    · rintro (h | rfl)
      · exact h
      · exact hm
  · rw [keysA_updA_of_not_mem f hm]
    simp

theorem mem_keysA_foldl_groupStep {α κ β : Type} [DecidableEq κ]
    (keyOf : α → Option κ) (init : β) (upd : β → α → β) (k : κ) :
    ∀ (l : List α) (acc : List (κ × β)),
      k ∈ keysA (List.foldl (groupStep keyOf init upd) acc l) ↔
        k ∈ keysA acc ∨ ∃ x ∈ l, keyOf x = some k := by
  intro l
  induction l with
  | nil => intro acc; simp
  | cons x l ih =>
    intro acc
    simp only [List.foldl_cons]
    rw [ih]
    have hstep : k ∈ keysA (groupStep keyOf init upd acc x) ↔
        k ∈ keysA acc ∨ keyOf x = some k := by
      unfold groupStep
      cases hx : keyOf x with
      | none => simp
      | some k2 =>
        rw [mem_keysA_updA]
        constructor
        · rintro (h | rfl)
          · exact Or.inl h
          · exact Or.inr rfl
        · rintro (h | h)
          · exact Or.inl h
          · exact Or.inr (Option.some.injEq .. ▸ h).symm
    rw [hstep]
    constructor
    · rintro ((h | h) | ⟨y, hy, hk⟩)
      · exact Or.inl h
      · exact Or.inr ⟨x, List.mem_cons_self x l, h⟩
      · exact Or.inr ⟨y, List.mem_cons_of_mem x hy, hk⟩
    · rintro (h | ⟨y, hy, hk⟩)
      · exact Or.inl (Or.inl h)
      · rcases List.mem_cons.mp hy with rfl | hy2
        · exact Or.inl (Or.inr hk)
        · exact Or.inr ⟨y, hy2, hk⟩

/-- The keys of the JS object built by a grouping loop are exactly the keys
produced by the records of the list. -/
theorem mem_keysA_groupFold {α κ β : Type} [DecidableEq κ]
    (keyOf : α → Option κ) (init : β) (upd : β → α → β) (k : κ)
    (l : List α) :
    k ∈ keysA (groupFold keyOf init upd l) ↔ ∃ x ∈ l, keyOf x = some k := by
  unfold groupFold
  rw [mem_keysA_foldl_groupStep]
  simp [keysA]

theorem nodup_keysA_foldl_groupStep {α κ β : Type} [DecidableEq κ]
    (keyOf : α → Option κ) (init : β) (upd : β → α → β) :
    ∀ (l : List α) (acc : List (κ × β)),
      (keysA acc).Nodup →
      (keysA (List.foldl (groupStep keyOf init upd) acc l)).Nodup := by
  intro l
  induction l with
  | nil => intro acc h; exact h
  | cons x l ih =>
    intro acc h
    simp only [List.foldl_cons]
    refine ih _ ?_
    unfold groupStep
    cases hx : keyOf x with
    | none => exact h
    | some k2 =>
      by_cases hm : k2 ∈ keysA acc
      · rw [keysA_updA_of_mem _ hm]; exact h
      · rw [keysA_updA_of_not_mem _ hm]
        simp [List.nodup_append, h, hm]

/-- The JS object built by a grouping loop binds each key once. -/
theorem nodup_keysA_groupFold {α κ β : Type} [DecidableEq κ]
    (keyOf : α → Option κ) (init : β) (upd : β → α → β) (l : List α) :
    (keysA (groupFold keyOf init upd l)).Nodup :=
  nodup_keysA_foldl_groupStep keyOf init upd l [] (by simp [keysA])

theorem catUpd_count (s : CatAcc) (r : SimaRec) :
    (catUpd s r).count = s.count + 1 := by
  by_cases h1 : r.p ≠ "" <;> by_cases h2 : pmTruthy r <;>
    simp [catUpd, h1, h2]

theorem catUpd_sum (s : CatAcc) (r : SimaRec) :
    (catUpd s r).sum = if pmTruthy r then s.sum + pmVal r else s.sum := by
  by_cases h1 : r.p ≠ "" <;> by_cases h2 : pmTruthy r <;>
    simp [catUpd, h1, h2]

theorem catUpd_min (s : CatAcc) (r : SimaRec) :
    (catUpd s r).catMin =
      if pmTruthy r then jsMinUpd s.catMin (pmVal r) else s.catMin := by
  by_cases h1 : r.p ≠ "" <;> by_cases h2 : pmTruthy r <;>
    simp [catUpd, h1, h2]

theorem catUpd_max (s : CatAcc) (r : SimaRec) :
    (catUpd s r).catMax =
      if pmTruthy r then jsMaxUpd s.catMax (pmVal r) else s.catMax := by
  by_cases h1 : r.p ≠ "" <;> by_cases h2 : pmTruthy r <;>
    simp [catUpd, h1, h2]

theorem catFold_count : ∀ (rs : List SimaRec) (s : CatAcc),
    (List.foldl catUpd s rs).count = s.count + rs.length := by
  intro rs
  induction rs with
  | nil => intro s; simp
  | cons r rs ih =>
    intro s
    simp only [List.foldl_cons, List.length_cons]
    rw [ih, catUpd_count]
    omega

theorem catFold_sum : ∀ (rs : List SimaRec) (s : CatAcc),
    (List.foldl catUpd s rs).sum = s.sum + ((rs.filter pmTruthy).map pmVal).sum := by
  intro rs
  induction rs with
  | nil => intro s; simp
  | cons r rs ih =>
    intro s
    simp only [List.foldl_cons, List.filter_cons]
    by_cases h : pmTruthy r
    · simp only [h, if_true, List.map_cons, List.sum_cons]
      rw [ih, catUpd_sum]
      simp [h]
      ring
    · simp only [h, Bool.false_eq_true, if_false]
      rw [ih, catUpd_sum]
      simp [h]

theorem catFold_min : ∀ (rs : List SimaRec) (s : CatAcc),
    (List.foldl catUpd s rs).catMin =
      List.foldl jsMinUpd s.catMin ((rs.filter pmTruthy).map pmVal) := by
  intro rs
  induction rs with
  | nil => intro s; simp
  | cons r rs ih =>
    intro s
    simp only [List.foldl_cons, List.filter_cons]
    by_cases h : pmTruthy r
    · simp only [h, if_true, List.map_cons, List.foldl_cons]
      rw [ih, catUpd_min]
      simp [h]
    · simp only [h, Bool.false_eq_true, if_false]
      rw [ih, catUpd_min]
      simp [h]

theorem catFold_max : ∀ (rs : List SimaRec) (s : CatAcc),
    (List.foldl catUpd s rs).catMax =
      List.foldl jsMaxUpd s.catMax ((rs.filter pmTruthy).map pmVal) := by
  intro rs
  induction rs with
  | nil => intro s; simp
  | cons r rs ih =>
    intro s
    simp only [List.foldl_cons, List.filter_cons]
    by_cases h : pmTruthy r
    · simp only [h, if_true, List.map_cons, List.foldl_cons]
      rw [ih, catUpd_max]
      simp [h]
    · simp only [h, Bool.false_eq_true, if_false]
      rw [ih, catUpd_max]
      simp [h]

theorem minFold_some : ∀ (S : List ℚ) (s : ℚ),
    ∃ m, List.foldl jsMinUpd (some s) S = some m ∧ (m = s ∨ m ∈ S) ∧ m ≤ s ∧
      ∀ v ∈ S, m ≤ v := by
  intro S
  induction S with
  | nil => intro s; exact ⟨s, rfl, Or.inl rfl, le_refl s, by simp⟩
  | cons v S ih =>
    intro s
    obtain ⟨m, hm, hmem, hle, hall⟩ := ih (min s v)
    refine ⟨m, by simpa [jsMinUpd] using hm, ?_, ?_, ?_⟩
    · rcases hmem with rfl | h
      · rcases min_choice s v with h2 | h2
        · exact Or.inl h2
        · exact Or.inr (by simp [h2])
      · exact Or.inr (List.mem_cons_of_mem v h)
    · exact le_trans hle (min_le_left s v)
    · intro w hw
      rcases List.mem_cons.mp hw with rfl | hw2
      · exact le_trans hle (min_le_right s w)
      · exact hall w hw2

theorem minFold_none {S : List ℚ} (h : S ≠ []) :
    ∃ m, List.foldl jsMinUpd none S = some m ∧ m ∈ S ∧ ∀ v ∈ S, m ≤ v := by
  match S with
  | [] => exact absurd rfl h
  | v :: S =>
    obtain ⟨m, hm, hmem, hle, hall⟩ := minFold_some S v
    refine ⟨m, by simpa [jsMinUpd] using hm, ?_, ?_⟩
    · rcases hmem with rfl | h2
      · exact List.mem_cons_self m S
      · exact List.mem_cons_of_mem v h2
    · intro w hw
      rcases List.mem_cons.mp hw with rfl | hw2
      · exact hle
      · exact hall w hw2

theorem maxFold_some : ∀ (S : List ℚ) (s : ℚ),
    ∃ m, List.foldl jsMaxUpd (some s) S = some m ∧ (m = s ∨ m ∈ S) ∧ s ≤ m ∧
      ∀ v ∈ S, v ≤ m := by
  intro S
  induction S with
  | nil => intro s; exact ⟨s, rfl, Or.inl rfl, le_refl s, by simp⟩
  | cons v S ih =>
    intro s
    obtain ⟨m, hm, hmem, hle, hall⟩ := ih (max s v)
    refine ⟨m, by simpa [jsMaxUpd] using hm, ?_, ?_, ?_⟩
    · rcases hmem with rfl | h
      · rcases max_choice s v with h2 | h2
        · exact Or.inl h2
        · exact Or.inr (by simp [h2])
      · exact Or.inr (List.mem_cons_of_mem v h)
    · exact le_trans (le_max_left s v) hle
    · intro w hw
      rcases List.mem_cons.mp hw with rfl | hw2
      · exact le_trans (le_max_right s w) hle
      · exact hall w hw2

theorem maxFold_none {S : List ℚ} (h : S ≠ []) :
    ∃ m, List.foldl jsMaxUpd none S = some m ∧ m ∈ S ∧ ∀ v ∈ S, v ≤ m := by
  match S with
  | [] => exact absurd rfl h
  | v :: S =>
    obtain ⟨m, hm, hmem, hle, hall⟩ := maxFold_some S v
    refine ⟨m, by simpa [jsMaxUpd] using hm, ?_, ?_⟩
    · rcases hmem with rfl | h2
      · exact List.mem_cons_self m S
      · exact List.mem_cons_of_mem v h2
    · intro w hw
      rcases List.mem_cons.mp hw with rfl | hw2
      · exact hle
      · exact hall w hw2

theorem mem_of_lookupA_eq {κ β : Type} [DecidableEq κ] {k : κ} {v : β} :
    ∀ {l : List (κ × β)}, lookupA k l = some v → (k, v) ∈ l := by
  intro l
  induction l with
  | nil => intro h; simp [lookupA] at h
  | cons hd tl ih =>
    obtain ⟨k1, v1⟩ := hd
    intro h
    by_cases h1 : k1 = k
    · subst h1
      simp [lookupA] at h
      subst h
      exact List.mem_cons_self _ _
    · simp [lookupA, h1] at h
      exact List.mem_cons_of_mem _ (ih h)

theorem catKeyOf_eq_some {r : SimaRec} {c : String} :
    catKeyOf r = some c ↔ r.c = c ∧ c ≠ "" := by
  unfold catKeyOf
  by_cases h : r.c = ""
  · rw [if_pos h]
    constructor
    · intro h2
      exact Option.noConfusion h2
    · rintro ⟨h2, h3⟩
      rw [h] at h2
      exact absurd h2.symm h3
  · rw [if_neg h]
    constructor
    · intro h2
      have h3 : r.c = c := Option.some.inj h2
      exact ⟨h3, h3 ▸ h⟩
    · rintro ⟨h2, _⟩
      rw [h2]

theorem catKeyOf_filter {c : String} (hc : c ≠ "") (l : List SimaRec) :
    l.filter (fun x => decide (catKeyOf x = some c)) = catRecs c l := by
  unfold catRecs
  apply List.filter_congr
  intro r _
  have : (catKeyOf r = some c) ↔ (r.c = c) := by
    rw [catKeyOf_eq_some]
    exact ⟨fun h2 => h2.1, fun h2 => ⟨h2, hc⟩⟩
  exact decide_eq_decide.mpr this

theorem byCategoryAcc_entry {c : String} {sAcc : CatAcc} {l : List SimaRec}
    (h : (c, sAcc) ∈ byCategoryAcc l) :
    c ≠ "" ∧ catRecs c l ≠ [] ∧
      sAcc = List.foldl catUpd initCat (catRecs c l) := by
  have hnd := nodup_keysA_groupFold catKeyOf initCat catUpd l
  have hc : c ≠ "" := by
    have hmem : c ∈ keysA (byCategoryAcc l) := by
      simpa [keysA] using List.mem_map_of_mem Prod.fst h
    obtain ⟨r, _, hr⟩ :=
      (mem_keysA_groupFold catKeyOf initCat catUpd c l).mp hmem
    exact (catKeyOf_eq_some.mp hr).2
  have hlk : lookupA c (byCategoryAcc l) = some sAcc :=
    lookupA_eq_of_mem hnd h
  rw [show byCategoryAcc l = groupFold catKeyOf initCat catUpd l from rfl,
    lookupA_groupFold, catKeyOf_filter hc l] at hlk
  refine ⟨hc, ?_, ?_⟩
  · intro he
    rw [he] at hlk
    simp at hlk
  · cases hcr : catRecs c l with
    | nil => rw [hcr] at hlk; simp at hlk
    | cons r rest =>
      rw [hcr] at hlk
      simp at hlk
      rw [← hlk]
      rfl

/-- C1: the client-side aggregation groups by category correctly.  For every
record list, the `byCategory` map of `useAggregations` has exactly the
non-empty `categoria` values of the input as keys (each bound once); for each
category, `registros` is the number of records of that category, `media` is
the sum of the truthy `pm` values divided by the total number of the
category's records, and `minimo` / `maximo` are the minimum / maximum of the
truthy `pm` values (`0` when the category has no truthy `pm`). -/
theorem useAggregations_byCategory_spec (l : List SimaRec) :
    ((byCategory l).map Prod.fst).Nodup ∧
    (∀ c : String,
      (∃ st, (c, st) ∈ byCategory l) ↔ c ≠ "" ∧ ∃ r ∈ l, r.c = c) ∧
    (∀ c st, (c, st) ∈ byCategory l →
      st.registros = (catRecs c l).length ∧
      st.media = (catPms c l).sum / ((catRecs c l).length : ℚ) ∧
      (catPms c l = [] → st.minimo = 0 ∧ st.maximo = 0) ∧
      (catPms c l ≠ [] →
        (st.minimo ∈ catPms c l ∧ ∀ v ∈ catPms c l, st.minimo ≤ v) ∧
        (st.maximo ∈ catPms c l ∧ ∀ v ∈ catPms c l, v ≤ st.maximo))) := by
  have hkeys : (byCategory l).map Prod.fst = keysA (byCategoryAcc l) := by
    unfold byCategory keysA
    rw [List.map_map]
    rfl
  refine ⟨?_, ?_, ?_⟩
  · rw [hkeys]
    exact nodup_keysA_groupFold catKeyOf initCat catUpd l
  · intro c
    constructor
    · rintro ⟨st, hst⟩
      obtain ⟨kv, hkv, hkveq⟩ := List.mem_map.mp hst
      have h1 : kv.1 = c := congrArg Prod.fst hkveq
      have h2 : (c, kv.2) ∈ byCategoryAcc l := by
        rw [← h1]; exact hkv
      obtain ⟨hc, hne, _⟩ := byCategoryAcc_entry h2
      refine ⟨hc, ?_⟩
      rcases hcr : catRecs c l with _ | ⟨r, rest⟩
      · exact absurd hcr hne
      · have : r ∈ catRecs c l := by rw [hcr]; exact List.mem_cons_self r rest
        obtain ⟨hrl, hrc⟩ := List.mem_filter.mp this
        exact ⟨r, hrl, of_decide_eq_true hrc⟩
    · rintro ⟨hc, r, hrl, hrc⟩
      have hmem : c ∈ keysA (byCategoryAcc l) :=
        (mem_keysA_groupFold catKeyOf initCat catUpd c l).mpr
          ⟨r, hrl, catKeyOf_eq_some.mpr ⟨hrc, hc⟩⟩
      obtain ⟨sAcc, hsAcc⟩ :=
        Option.isSome_iff_exists.mp ((mem_keysA_iff_lookupA c _).mp hmem)
      exact ⟨finalizeCat sAcc,
        List.mem_map_of_mem _ (mem_of_lookupA_eq hsAcc)⟩
  · intro c st hst
    obtain ⟨kv, hkv, hkveq⟩ := List.mem_map.mp hst
    have h1 : kv.1 = c := congrArg Prod.fst hkveq
    have h2 : st = finalizeCat kv.2 := (congrArg Prod.snd hkveq).symm
    have h3 : (c, kv.2) ∈ byCategoryAcc l := by rw [← h1]; exact hkv
    obtain ⟨hc, hne, hacc⟩ := byCategoryAcc_entry h3
    have hcount : kv.2.count = (catRecs c l).length := by
      rw [hacc, catFold_count]
      simp [initCat]
    have hsum : kv.2.sum = (catPms c l).sum := by
      rw [hacc, catFold_sum]
      simp [initCat, catPms]
    have hmin : kv.2.catMin = List.foldl jsMinUpd none (catPms c l) := by
      rw [hacc, catFold_min]
      rfl
    have hmax : kv.2.catMax = List.foldl jsMaxUpd none (catPms c l) := by
      rw [hacc, catFold_max]
      rfl
    have hpos : 0 < kv.2.count := by
      rw [hcount]
      cases hcr : catRecs c l with
      | nil => exact absurd hcr hne
      | cons r rest => simp
    refine ⟨?_, ?_, ?_, ?_⟩
    · rw [h2]; simpa [finalizeCat] using hcount
    · rw [h2]
      simp only [finalizeCat, if_pos hpos]
      rw [hsum, hcount]
    · intro hnil
      rw [h2]
      simp only [finalizeCat]
      rw [hmin, hmax, hnil]
      simp
    · intro hnil
      obtain ⟨m1, hm1, hm1mem, hm1all⟩ := minFold_none hnil
      obtain ⟨m2, hm2, hm2mem, hm2all⟩ := maxFold_none hnil
      constructor
      · have : st.minimo = m1 := by
          rw [h2]; simp only [finalizeCat]; rw [hmin, hm1]; rfl
        rw [this]
        exact ⟨hm1mem, hm1all⟩
      · have : st.maximo = m2 := by
          rw [h2]; simp only [finalizeCat]; rw [hmax, hm2]; rfl
        rw [this]
        exact ⟨hm2mem, hm2all⟩

/-- Witness for C1 at a concrete record list. -/
theorem useAggregations_byCategory_spec_witness :
    ∃ st : CatStats, ("Graos", st) ∈ byCategory c1ListW ∧
      st.registros = 2 ∧ st.minimo = 10 := by
  have h := useAggregations_byCategory_spec c1ListW
  obtain ⟨st, hst⟩ := (h.2.1 "Graos").mpr
    ⟨by decide, c1RecW, by decide, by decide⟩
  refine ⟨st, hst, ?_, ?_⟩
  · rw [(h.2.2 "Graos" st hst).1]
    decide
  · have h4 := ((h.2.2 "Graos" st hst).2.2.2 (by decide)).1.1
    have h5 : catPms "Graos" c1ListW = [10] := by decide
    rw [h5] at h4
    simpa using h4

theorem filterAnoMin_eq (o : Option Int) (l : List SimaRec) :
    filterAnoMin o l =
      l.filter (fun r => !activeNum o || decide (o.getD 0 ≤ r.a)) := by
  cases o with
  | none => simp [filterAnoMin, activeNum]
  | some v =>
    by_cases hv : v = 0
    · subst hv; simp [filterAnoMin, activeNum]
    · simp [filterAnoMin, activeNum, hv]

theorem filterAnoMax_eq (o : Option Int) (l : List SimaRec) :
    filterAnoMax o l =
      l.filter (fun r => !activeNum o || decide (r.a ≤ o.getD 0)) := by
  cases o with
  | none => simp [filterAnoMax, activeNum]
  | some v =>
    by_cases hv : v = 0
    · subst hv; simp [filterAnoMax, activeNum]
    · simp [filterAnoMax, activeNum, hv]

theorem filterCategoria_eq (o : Option String) (l : List SimaRec) :
    filterCategoria o l =
      l.filter (fun r => !activeStr o || decide (r.c = o.getD "")) := by
  cases o with
  | none => simp [filterCategoria, activeStr]
  | some s =>
    by_cases hs : s = ""
    · subst hs; simp [filterCategoria, activeStr]
    · simp [filterCategoria, activeStr, hs]

theorem filterProduto_eq (o : Option String) (l : List SimaRec) :
    filterProduto o l =
      l.filter (fun r => !activeStr o || decide (r.p = o.getD "")) := by
  cases o with
  | none => simp [filterProduto, activeStr]
  | some s =>
    by_cases hs : s = ""
    · subst hs; simp [filterProduto, activeStr]
    · simp [filterProduto, activeStr, hs]

/-- C4: filtering is in-memory selection over the record array:
`useFilteredData` returns exactly the records of `data.detailed.records` that
satisfy every active filter, in their original order (a single `filter`), and
returns the array unchanged when no filter is active. -/
theorem useFilteredData_spec (records : List SimaRec) (f : UiFilters) :
    useFilteredData (some ⟨some ⟨some records⟩⟩) f =
      records.filter (matchesFilters f) ∧
    (activeNum f.anoMin = false → activeNum f.anoMax = false →
      activeStr f.categoria = false → activeStr f.produto = false →
      useFilteredData (some ⟨some ⟨some records⟩⟩) f = records) := by
  have hmain : useFilteredData (some ⟨some ⟨some records⟩⟩) f =
      records.filter (matchesFilters f) := by
    show filterProduto f.produto
        (filterCategoria f.categoria
          (filterAnoMax f.anoMax (filterAnoMin f.anoMin records))) =
      records.filter (matchesFilters f)
    rw [filterAnoMin_eq, filterAnoMax_eq, filterCategoria_eq, filterProduto_eq]
    simp only [List.filter_filter]
    apply List.filter_congr
    intro r _
    cases h1 : (!activeNum f.anoMin || decide (f.anoMin.getD 0 ≤ r.a)) <;>
      cases h2 : (!activeNum f.anoMax || decide (r.a ≤ f.anoMax.getD 0)) <;>
      cases h3 : (!activeStr f.categoria || decide (r.c = f.categoria.getD "")) <;>
      cases h4 : (!activeStr f.produto || decide (r.p = f.produto.getD "")) <;>
      simp [matchesFilters, h1, h2, h3, h4]
  refine ⟨hmain, ?_⟩
  intro h1 h2 h3 h4
  rw [hmain]
  apply List.filter_eq_self.mpr
  intro r _
  simp [matchesFilters, h1, h2, h3, h4]

/-- Witness for C4: with no active filter the record array comes back
unchanged at a concrete input. -/
theorem useFilteredData_spec_witness :
    useFilteredData (some ⟨some ⟨some c1ListW⟩⟩) ⟨none, none, none, none⟩ =
      c1ListW :=
  (useFilteredData_spec c1ListW ⟨none, none, none, none⟩).2 rfl rfl rfl rfl

/-- C10: the static-JSON `useForecast` truncates each model's `previsoes` to
at most `max(1, round(horizonte / 30))` entries, keeping a prefix of the
original list, and leaves every other field of each model and of the result
object unchanged (models are kept in order, one for one, with their keys). -/
theorem useForecast_trim_spec {π ω σ : Type} (horizonte : ℚ)
    (result : ForecastResult π ω σ) :
    (trimForecast horizonte result).other = result.other ∧
    List.Forall₂
      (fun tkv kv : String × ForecastModel π ω =>
        tkv.1 = kv.1 ∧
        tkv.2.other = kv.2.other ∧
        tkv.2.previsoes.length ≤ trimMonths horizonte ∧
        ∃ rest, tkv.2.previsoes ++ rest = kv.2.previsoes)
      (trimForecast horizonte result).modelos result.modelos := by
  refine ⟨rfl, ?_⟩
  show List.Forall₂ _
    (result.modelos.map (fun kv =>
      (kv.1,
        ({ previsoes := kv.2.previsoes.take (trimMonths horizonte),
           other := kv.2.other } : ForecastModel π ω)))) result.modelos
  induction result.modelos with
  | nil => exact List.Forall₂.nil
  | cons kv rest ih =>
    refine List.Forall₂.cons ⟨rfl, rfl, ?_, ?_⟩ ih
    · rw [List.length_take]
      exact min_le_left _ _
    · exact ⟨kv.2.previsoes.drop (trimMonths horizonte),
        List.take_append_drop _ _⟩

/-- Witness for C10 at a concrete forecast result (two models, horizon 90
days, so three monthly points are kept). -/
theorem useForecast_trim_spec_witness :
    (trimForecast (π := ℕ) (ω := ℕ) (σ := ℕ) 90
        { modelos := [("linear", { previsoes := [1, 2, 3, 4, 5], other := 7 }),
                      ("prophet", { previsoes := [6], other := 8 })],
          other := 9 }) =
      { modelos := [("linear", { previsoes := [1, 2, 3], other := 7 }),
                    ("prophet", { previsoes := [6], other := 8 })],
        other := 9 } ∧
    (trimForecast (π := ℕ) (ω := ℕ) (σ := ℕ) 90
        { modelos := [("linear", { previsoes := [1, 2, 3, 4, 5], other := 7 }),
                      ("prophet", { previsoes := [6], other := 8 })],
          other := 9 }).other = 9 := by
  have hfl : Int.floor ((90 : ℚ) / 30 + 1 / 2) = 3 := by
    rw [Int.floor_eq_iff]
    norm_num
  have htm : trimMonths 90 = 3 := by
    unfold trimMonths jsRound
    rw [hfl]
    rfl
  constructor
  · unfold trimForecast
    rw [htm]
    rfl
  · exact (useForecast_trim_spec 90 _).1.trans rfl

theorem loadDataCore_isSome_iff {J : Type} (normalize : J → J → J → J)
    (r1 r2 r3 r4 : Except String J) :
    (loadDataCore normalize r1 r2 r3 r4).data.isSome ↔
      (exceptOk r1 = true ∧ exceptOk r2 = true ∧ exceptOk r3 = true ∧
        exceptOk r4 = true) := by
  cases r1 <;> cases r2 <;> cases r3 <;> cases r4 <;>
    simp [loadDataCore, promiseAll4, exceptOk]

theorem loadDataCore_error_iff {J : Type} (normalize : J → J → J → J)
    (r1 r2 r3 r4 : Except String J) :
    (loadDataCore normalize r1 r2 r3 r4).data.isSome ↔
      (loadDataCore normalize r1 r2 r3 r4).error = none := by
  cases r1 <;> cases r2 <;> cases r3 <;> cases r4 <;>
    simp [loadDataCore, promiseAll4]

theorem loadDataCore_failure {J : Type} (normalize : J → J → J → J)
    (r1 r2 r3 r4 : Except String J)
    (h : ¬(exceptOk r1 = true ∧ exceptOk r2 = true ∧ exceptOk r3 = true ∧
        exceptOk r4 = true)) :
    (loadDataCore normalize r1 r2 r3 r4).data = none ∧
    ∃ m, (loadDataCore normalize r1 r2 r3 r4).error = some m ∧
      (r1 = .error m ∨ r2 = .error m ∨ r3 = .error m ∨ r4 = .error m) := by
  cases r1 <;> cases r2 <;> cases r3 <;> cases r4 <;>
    simp [loadDataCore, promiseAll4, exceptOk] at h ⊢

theorem loadDataCore_loading {J : Type} (normalize : J → J → J → J)
    (r1 r2 r3 r4 : Except String J) :
    (loadDataCore normalize r1 r2 r3 r4).loading = false := by
  cases r1 <;> cases r2 <;> cases r3 <;> cases r4 <;>
    simp [loadDataCore, promiseAll4]

/-- C3: the loader fetches exactly `aggregated.json`, `detailed.json`,
`timeseries.json` and `filters.json`; a data object containing all four is
produced iff every fetch has an ok status and a parsing body; on any failure
the data stays `none`, the error is the failure message of a failing fetch,
and (for the non-empty messages the code produces) the app renders the
`Erro ao carregar dados` screen instead of the dashboard.  The last clause
states that the loader reads nothing besides the four documents. -/
theorem useData_load_spec {J : Type} (normalize : J → J → J → J)
    (env : String → HttpResponse J) :
    ((loadData normalize env).data.isSome ↔
      ∀ p ∈ dataFiles, exceptOk (fetchJson p (env p)) = true) ∧
    ((loadData normalize env).data.isSome ↔
      (loadData normalize env).error = none) ∧
    (∀ a d t f : J,
      fetchJson "aggregated.json" (env "aggregated.json") = .ok a →
      fetchJson "detailed.json" (env "detailed.json") = .ok d →
      fetchJson "timeseries.json" (env "timeseries.json") = .ok t →
      fetchJson "filters.json" (env "filters.json") = .ok f →
      (loadData normalize env).data =
        some { aggregated := a, detailed := d, timeseries := t,
               filters := normalize f a d } ∧
      renderApp (loadData normalize env) = Screen.dashboard) ∧
    ((¬ ∀ p ∈ dataFiles, exceptOk (fetchJson p (env p)) = true) →
      (loadData normalize env).data = none ∧
      ∃ m, (loadData normalize env).error = some m ∧
        (∃ p ∈ dataFiles, fetchJson p (env p) = .error m) ∧
        (m ≠ "" →
          renderApp (loadData normalize env) =
            Screen.errorScreen "Erro ao carregar dados")) ∧
    (∀ env2 : String → HttpResponse J,
      (∀ p ∈ dataFiles, env p = env2 p) →
      loadData normalize env = loadData normalize env2) := by
  have hall : (∀ p ∈ dataFiles, exceptOk (fetchJson p (env p)) = true) ↔
      (exceptOk (fetchJson "aggregated.json" (env "aggregated.json")) = true ∧
       exceptOk (fetchJson "detailed.json" (env "detailed.json")) = true ∧
       exceptOk (fetchJson "timeseries.json" (env "timeseries.json")) = true ∧
       exceptOk (fetchJson "filters.json" (env "filters.json")) = true) := by
    constructor
    · intro h
      exact ⟨h _ (by simp [dataFiles]), h _ (by simp [dataFiles]),
        h _ (by simp [dataFiles]), h _ (by simp [dataFiles])⟩
    · rintro ⟨h1, h2, h3, h4⟩ p hp
      rcases (by simpa [dataFiles] using hp :
          p = "aggregated.json" ∨ p = "detailed.json" ∨
          p = "timeseries.json" ∨ p = "filters.json") with rfl | rfl | rfl | rfl
      · exact h1
      · exact h2
      · exact h3
      · exact h4
  refine ⟨?_, ?_, ?_, ?_, ?_⟩
  · rw [hall]
    exact loadDataCore_isSome_iff normalize _ _ _ _
  · exact loadDataCore_error_iff normalize _ _ _ _
  · intro a d t f h1 h2 h3 h4
    have hdata : (loadData normalize env).data =
        some { aggregated := a, detailed := d, timeseries := t,
               filters := normalize f a d } := by
      unfold loadData
      rw [h1, h2, h3, h4]
      rfl
    refine ⟨hdata, ?_⟩
    have herr : (loadData normalize env).error = none := by
      refine (loadDataCore_error_iff normalize _ _ _ _).mp ?_
      show (loadData normalize env).data.isSome
      rw [hdata]
      rfl
    have hload : (loadData normalize env).loading = false :=
      loadDataCore_loading normalize _ _ _ _
    simp [renderApp, hload, herr]
  · intro h
    rw [hall] at h
    obtain ⟨hnone, m, hm, hdisj⟩ := loadDataCore_failure normalize _ _ _ _ h
    refine ⟨hnone, m, hm, ?_, ?_⟩
    · rcases hdisj with hd | hd | hd | hd
      · exact ⟨"aggregated.json", by simp [dataFiles], hd⟩
      · exact ⟨"detailed.json", by simp [dataFiles], hd⟩
      · exact ⟨"timeseries.json", by simp [dataFiles], hd⟩
      · exact ⟨"filters.json", by simp [dataFiles], hd⟩
    · intro hne
      have hload : (loadData normalize env).loading = false :=
        loadDataCore_loading normalize _ _ _ _
      have hm2 : (loadData normalize env).error = some m := hm
      simp [renderApp, hload, hm2, hne]
  · intro env2 h
    unfold loadData
    rw [h "aggregated.json" (by simp [dataFiles]),
      h "detailed.json" (by simp [dataFiles]),
      h "timeseries.json" (by simp [dataFiles]),
      h "filters.json" (by simp [dataFiles])]

/-- Witness for C3: a concrete environment where `detailed.json` has a
failing HTTP status; the loader keeps `data` null, stores the failure
message, and the app shows the error screen. -/
theorem useData_load_spec_witness :
    (loadData (J := ℕ) (fun f _ _ => f)
        (fun p => if p = "detailed.json" then
            { ok := false, body := Except.error "boom" }
          else { ok := true, body := Except.ok 1 })).data = none ∧
    renderApp (loadData (J := ℕ) (fun f _ _ => f)
        (fun p => if p = "detailed.json" then
            { ok := false, body := Except.error "boom" }
          else { ok := true, body := Except.ok 1 })) =
      Screen.errorScreen "Erro ao carregar dados" := by
  have h := (useData_load_spec (J := ℕ) (fun f _ _ => f)
    (fun p => if p = "detailed.json" then
        { ok := false, body := Except.error "boom" }
      else { ok := true, body := Except.ok 1 })).2.2.2.1 (by decide)
  obtain ⟨hnone, m, hm, _, hrender⟩ := h
  have hmval : m = "Failed to load detailed.json" := by
    have : (loadData (J := ℕ) (fun f _ _ => f)
        (fun p => if p = "detailed.json" then
            { ok := false, body := Except.error "boom" }
          else { ok := true, body := Except.ok 1 })).error =
        some "Failed to load detailed.json" := by decide
    rw [this] at hm
    exact (Option.some.inj hm).symm
  exact ⟨hnone, hrender (by rw [hmval]; decide)⟩

theorem bestModelGo_some : ∀ (L : List (String × ChartModel)) (p : String × ℚ),
    ∃ q, bestModelGo L (some p) = some q := by
  intro L
  induction L with
  | nil => intro p; exact ⟨p, rfl⟩
  | cons kv rest ih =>
    intro p
    obtain ⟨k, m⟩ := kv
    obtain ⟨bk, bv⟩ := p
    cases hr : r2Of m with
    | none => simpa [bestModelGo, hr] using ih (bk, bv)
    | some v =>
      by_cases hlt : bv < v
      · simpa [bestModelGo, hr, hlt] using ih (k, v)
      · simpa [bestModelGo, hr, hlt] using ih (bk, bv)

theorem bestModelGo_none_iff : ∀ (L : List (String × ChartModel)),
    bestModelGo L none = none ↔ ∀ kv ∈ L, r2Of kv.2 = none := by
  intro L
  induction L with
  | nil => simp [bestModelGo]
  | cons kv rest ih =>
    obtain ⟨k, m⟩ := kv
    cases hr : r2Of m with
    | none => simp [bestModelGo, hr, ih]
    | some v =>
      obtain ⟨q, hq⟩ := bestModelGo_some rest (k, v)
      simp [bestModelGo, hr, hq]

theorem bestModelGo_max : ∀ (L : List (String × ChartModel))
    (acc : Option (String × ℚ)) (k : String) (v : ℚ),
    bestModelGo L acc = some (k, v) →
    (∀ kv ∈ L, ∀ w, r2Of kv.2 = some w → w ≤ v) ∧
    (∀ bk bv, acc = some (bk, bv) → bv ≤ v) := by
  intro L
  induction L with
  | nil =>
    intro acc k v h
    refine ⟨by simp, ?_⟩
    rintro bk bv rfl
    exact le_of_eq (congrArg Prod.snd (Option.some.inj h))
  | cons kv rest ih =>
    intro acc k v h
    obtain ⟨k1, m1⟩ := kv
    cases hr : r2Of m1 with
    | none =>
      rw [show bestModelGo ((k1, m1) :: rest) acc = bestModelGo rest acc by
        simp [bestModelGo, hr]] at h
      obtain ⟨hall, hacc⟩ := ih acc k v h
      refine ⟨?_, hacc⟩
      intro kv2 hkv2 w hw
      rcases List.mem_cons.mp hkv2 with rfl | hkv2
      · rw [hw] at hr; exact Option.noConfusion hr
      · exact hall kv2 hkv2 w hw
    | some v1 =>
      cases acc with
      | none =>
        rw [show bestModelGo ((k1, m1) :: rest) none =
            bestModelGo rest (some (k1, v1)) by simp [bestModelGo, hr]] at h
        obtain ⟨hall, hacc⟩ := ih (some (k1, v1)) k v h
        have hv1 : v1 ≤ v := hacc k1 v1 rfl
        refine ⟨?_, ?_⟩
        · intro kv2 hkv2 w hw
          rcases List.mem_cons.mp hkv2 with rfl | hkv2
          · rw [hr] at hw
            obtain rfl : v1 = w := Option.some.inj hw
            exact hv1
          · exact hall kv2 hkv2 w hw
        · intro bk bv heq
          exact Option.noConfusion heq
      | some p =>
        obtain ⟨bk0, bv0⟩ := p
        by_cases hlt : bv0 < v1
        · rw [show bestModelGo ((k1, m1) :: rest) (some (bk0, bv0)) =
              bestModelGo rest (some (k1, v1)) by
            simp [bestModelGo, hr, hlt]] at h
          obtain ⟨hall, hacc⟩ := ih (some (k1, v1)) k v h
          have hv1 : v1 ≤ v := hacc k1 v1 rfl
          refine ⟨?_, ?_⟩
          · intro kv2 hkv2 w hw
            rcases List.mem_cons.mp hkv2 with rfl | hkv2
            · rw [hr] at hw
              obtain rfl : v1 = w := Option.some.inj hw
              exact hv1
            · exact hall kv2 hkv2 w hw
          · intro bk bv heq
            have h2 : bv0 = bv := congrArg Prod.snd (Option.some.inj heq)
            rw [← h2]
            exact le_of_lt (lt_of_lt_of_le hlt hv1)
        · rw [show bestModelGo ((k1, m1) :: rest) (some (bk0, bv0)) =
              bestModelGo rest (some (bk0, bv0)) by
            simp [bestModelGo, hr, hlt]] at h
          obtain ⟨hall, hacc⟩ := ih (some (bk0, bv0)) k v h
          have hbv0 : bv0 ≤ v := hacc bk0 bv0 rfl
          refine ⟨?_, ?_⟩
          · intro kv2 hkv2 w hw
            rcases List.mem_cons.mp hkv2 with rfl | hkv2
            · rw [hr] at hw
              obtain rfl : v1 = w := Option.some.inj hw
              exact le_trans (le_of_not_lt hlt) hbv0
            · exact hall kv2 hkv2 w hw
          · intro bk bv heq
            have h2 : bv0 = bv := congrArg Prod.snd (Option.some.inj heq)
            rw [← h2]
            exact hbv0

theorem bestModelGo_origin : ∀ (L : List (String × ChartModel))
    (acc : Option (String × ℚ)) (k : String) (v : ℚ),
    bestModelGo L acc = some (k, v) →
    acc = some (k, v) ∨
    ∃ L1 m L2, L = L1 ++ (k, m) :: L2 ∧ r2Of m = some v ∧
      (∀ kv ∈ L1, ∀ w, r2Of kv.2 = some w → w < v) ∧
      (∀ bk bv, acc = some (bk, bv) → bv < v) := by
  intro L
  induction L with
  | nil =>
    intro acc k v h
    exact Or.inl h
  | cons kv rest ih =>
    intro acc k v h
    obtain ⟨k1, m1⟩ := kv
    cases hr : r2Of m1 with
    | none =>
      rw [show bestModelGo ((k1, m1) :: rest) acc = bestModelGo rest acc by
        simp [bestModelGo, hr]] at h
      rcases ih acc k v h with hl | ⟨L1, m, L2, heq, hr2, hstrict, hacc⟩
      · exact Or.inl hl
      · refine Or.inr ⟨(k1, m1) :: L1, m, L2, by rw [heq]; rfl, hr2, ?_, hacc⟩
        intro kv2 hkv2 w hw
        rcases List.mem_cons.mp hkv2 with rfl | hkv2
        · rw [hw] at hr; exact Option.noConfusion hr
        · exact hstrict kv2 hkv2 w hw
    | some v1 =>
      cases acc with
      | none =>
        rw [show bestModelGo ((k1, m1) :: rest) none =
            bestModelGo rest (some (k1, v1)) by simp [bestModelGo, hr]] at h
        rcases ih (some (k1, v1)) k v h with hl |
          ⟨L1, m, L2, heq, hr2, hstrict, hacc⟩
        · have h1 : k1 = k := congrArg Prod.fst (Option.some.inj hl)
          have h2 : v1 = v := congrArg Prod.snd (Option.some.inj hl)
          subst h1; subst h2
          refine Or.inr ⟨[], m1, rest, rfl, hr, by simp, ?_⟩
          intro bk bv heq2
          exact Option.noConfusion heq2
        · have hv1 : v1 < v := hacc k1 v1 rfl
          refine Or.inr ⟨(k1, m1) :: L1, m, L2, by rw [heq]; rfl, hr2, ?_, ?_⟩
          · intro kv2 hkv2 w hw
            rcases List.mem_cons.mp hkv2 with rfl | hkv2
            · rw [hr] at hw
              obtain rfl : v1 = w := Option.some.inj hw
              exact hv1
            · exact hstrict kv2 hkv2 w hw
          · intro bk bv heq2
            exact Option.noConfusion heq2
      | some p =>
        obtain ⟨bk0, bv0⟩ := p
        by_cases hlt : bv0 < v1
        · rw [show bestModelGo ((k1, m1) :: rest) (some (bk0, bv0)) =
              bestModelGo rest (some (k1, v1)) by
            simp [bestModelGo, hr, hlt]] at h
          rcases ih (some (k1, v1)) k v h with hl |
            ⟨L1, m, L2, heq, hr2, hstrict, hacc⟩
          · have h1 : k1 = k := congrArg Prod.fst (Option.some.inj hl)
            have h2 : v1 = v := congrArg Prod.snd (Option.some.inj hl)
            subst h1; subst h2
            refine Or.inr ⟨[], m1, rest, rfl, hr, by simp, ?_⟩
            intro bk bv heq2
            have h3 : bv0 = bv := congrArg Prod.snd (Option.some.inj heq2)
            rw [← h3]
            exact hlt
          · have hv1 : v1 < v := hacc k1 v1 rfl
            refine Or.inr ⟨(k1, m1) :: L1, m, L2, by rw [heq]; rfl, hr2, ?_, ?_⟩
            · intro kv2 hkv2 w hw
              rcases List.mem_cons.mp hkv2 with rfl | hkv2
              · rw [hr] at hw
                obtain rfl : v1 = w := Option.some.inj hw
                exact hv1
              · exact hstrict kv2 hkv2 w hw
            · intro bk bv heq2
              have h3 : bv0 = bv := congrArg Prod.snd (Option.some.inj heq2)
              rw [← h3]
              exact lt_trans hlt hv1
        · rw [show bestModelGo ((k1, m1) :: rest) (some (bk0, bv0)) =
              bestModelGo rest (some (bk0, bv0)) by
            simp [bestModelGo, hr, hlt]] at h
          rcases ih (some (bk0, bv0)) k v h with hl |
            ⟨L1, m, L2, heq, hr2, hstrict, hacc⟩
          · exact Or.inl hl
          · have hbv0 : bv0 < v := hacc bk0 bv0 rfl
            refine Or.inr ⟨(k1, m1) :: L1, m, L2, by rw [heq]; rfl, hr2, ?_, ?_⟩
            · intro kv2 hkv2 w hw
              rcases List.mem_cons.mp hkv2 with rfl | hkv2
              · rw [hr] at hw
                obtain rfl : v1 = w := Option.some.inj hw
                exact lt_of_le_of_lt (le_of_not_lt hlt) hbv0
              · exact hstrict kv2 hkv2 w hw
            · intro bk bv heq2
              have h3 : bv0 = bv := congrArg Prod.snd (Option.some.inj heq2)
              rw [← h3]
              exact hbv0

/-- C7: the model highlighted as best is the one with maximal numeric
`metricas.r2`: `bestModel` is `null` iff no model has a numeric `r2`, and a
selected key occurs in the map with a numeric `r2` that is greater than or
equal to every numeric `r2` in the map and strictly greater than every
numeric `r2` occurring before it (so a null-`r2` key is never selected while
a numeric one exists, and the earliest key wins ties). -/
theorem forecastChart_bestModel_spec (modelos : List (String × ChartModel)) :
    (bestModel modelos = none ↔ ∀ kv ∈ modelos, r2Of kv.2 = none) ∧
    (∀ k, bestModel modelos = some k →
      ∃ L1 m v L2, modelos = L1 ++ (k, m) :: L2 ∧ r2Of m = some v ∧
        (∀ kv ∈ modelos, ∀ w, r2Of kv.2 = some w → w ≤ v) ∧
        (∀ kv ∈ L1, ∀ w, r2Of kv.2 = some w → w < v)) := by
  constructor
  · rw [show (bestModel modelos = none) =
        ((bestModelGo modelos none).map Prod.fst = none) from rfl]
    rw [Option.map_eq_none']
    exact bestModelGo_none_iff modelos
  · intro k hk
    unfold bestModel at hk
    cases hgo : bestModelGo modelos none with
    | none => rw [hgo] at hk; exact Option.noConfusion hk
    | some p =>
      obtain ⟨k0, v⟩ := p
      rw [hgo] at hk
      have hk0 : k0 = k := Option.some.inj hk
      subst hk0
      rcases bestModelGo_origin modelos none k0 v hgo with hl | h
      · exact Option.noConfusion hl
      · obtain ⟨L1, m, L2, heq, hr2, hstrict, _⟩ := h
        obtain ⟨hall, _⟩ := bestModelGo_max modelos none k0 v hgo
        exact ⟨L1, m, v, L2, heq, hr2, hall, hstrict⟩

/-- Witness for C7 at a concrete map: the earliest of the tied numeric models
is selected, with its position and maximality extracted from the theorem. -/
theorem forecastChart_bestModel_spec_witness :
    ∃ (L1 : List (String × ChartModel)) (m : ChartModel) (v : ℚ)
      (L2 : List (String × ChartModel)),
      c7ModelosW = L1 ++ ("linear", m) :: L2 ∧ r2Of m = some v ∧
        (∀ kv ∈ c7ModelosW, ∀ w, r2Of kv.2 = some w → w ≤ v) ∧
        (∀ kv ∈ L1, ∀ w, r2Of kv.2 = some w → w < v) :=
  (forecastChart_bestModel_spec c7ModelosW).2 "linear" (by decide)

theorem splitSep_ne_nil (sep : Char) : ∀ s : List Char, splitSep sep s ≠ [] := by
  intro s
  cases s with
  | nil => simp [splitSep]
  | cons ch rest =>
    by_cases h : ch = sep
    · simp [splitSep, h]
    · simp only [splitSep, if_neg h]
      cases splitSep sep rest <;> simp

theorem splitSep_append_of_not_mem (sep : Char) :
    ∀ (c s : List Char), sep ∉ c →
      splitSep sep (c ++ s) =
        match splitSep sep s with
        | [] => [c]
        | t :: ts => (c ++ t) :: ts := by
  intro c
  induction c with
  | nil =>
    intro s _
    cases hs : splitSep sep s with
    | nil => exact absurd hs (splitSep_ne_nil sep s)
    | cons t ts => simp [hs]
  | cons ch c ih =>
    intro s hmem
    have hch : ch ≠ sep := fun he => hmem (by simp [he])
    have hc : sep ∉ c := fun hm => hmem (List.mem_cons_of_mem ch hm)
    cases hs : splitSep sep s with
    | nil => exact absurd hs (splitSep_ne_nil sep s)
    | cons t ts =>
      have h2 := ih s hc
      rw [hs] at h2
      have h3 : splitSep sep (c ++ s) = (c ++ t) :: ts := h2
      simp only [List.cons_append, splitSep, if_neg hch, List.append_eq, h3]

theorem splitSep_joinSep (sep : Char) :
    ∀ (cells : List (List Char)), cells ≠ [] →
      (∀ c ∈ cells, sep ∉ c) →
      splitSep sep (joinSep sep cells) = cells := by
  intro cells
  induction cells with
  | nil => intro h; exact absurd rfl h
  | cons c rest ih =>
    intro _ hmem
    cases rest with
    | nil =>
      have hc : sep ∉ c := hmem c (List.mem_cons_self c [])
      have h1 := splitSep_append_of_not_mem sep c [] hc
      simpa [joinSep, splitSep] using h1
    | cons c2 rest2 =>
      have hc : sep ∉ c := hmem c (List.mem_cons_self c _)
      have hrest : ∀ x ∈ c2 :: rest2, sep ∉ x :=
        fun x hx => hmem x (List.mem_cons_of_mem c hx)
      have hne : (c2 :: rest2 : List (List Char)) ≠ [] := by simp
      have hjoin : joinSep sep (c :: c2 :: rest2) =
          c ++ sep :: joinSep sep (c2 :: rest2) := rfl
      rw [hjoin, splitSep_append_of_not_mem sep c _ hc]
      have hsplit : splitSep sep (sep :: joinSep sep (c2 :: rest2)) =
          [] :: splitSep sep (joinSep sep (c2 :: rest2)) := by
        simp [splitSep]
      rw [hsplit, ih hne hrest]
      simp

theorem mem_joinSep {sep : Char} {x : Char} :
    ∀ {cells : List (List Char)}, x ∈ joinSep sep cells →
      x = sep ∨ ∃ c ∈ cells, x ∈ c := by
  intro cells
  induction cells with
  | nil => intro h; simp [joinSep] at h
  | cons c rest ih =>
    intro h
    cases rest with
    | nil =>
      exact Or.inr ⟨c, List.mem_cons_self c [], by simpa [joinSep] using h⟩
    | cons c2 rest2 =>
      rw [show joinSep sep (c :: c2 :: rest2) =
        c ++ sep :: joinSep sep (c2 :: rest2) from rfl] at h
      rcases List.mem_append.mp h with h1 | h1
      · exact Or.inr ⟨c, List.mem_cons_self c _, h1⟩
      · rcases List.mem_cons.mp h1 with rfl | h2
        · exact Or.inl rfl
        · rcases ih h2 with hl | ⟨c3, hc3, hx⟩
          · exact Or.inl hl
          · exact Or.inr ⟨c3, List.mem_cons_of_mem c hc3, hx⟩

/-- C2 counterexample: the export does not escape the `';'` delimiter, so a
row with a cell containing `';'` does not round-trip: parsing the produced
CSV splits that cell. -/
theorem exportCSV_no_escaping_cex :
    parseCSVtext
        (exportCSVtext ["Data".toList]
          [["2024-01-01".toList, "R$ 1,00; alta".toList]]) ≠
      ["Data".toList] :: [["2024-01-01".toList, "R$ 1,00; alta".toList]] := by
  decide

/-- C2 (amended): the CSV export joins cells with `';'` and lines with a
newline, without any quoting or escaping; consequently parsing the produced
CSV back recovers the original rows exactly when no cell contains the
delimiter or a newline (and every row is non-empty, as the exported rows
are). -/
theorem exportCSV_roundtrip_amended (headers : List (List Char))
    (rows : List (List (List Char)))
    (hne : ∀ row ∈ headers :: rows, row ≠ [])
    (hclean : ∀ row ∈ headers :: rows, ∀ c ∈ row, ';' ∉ c ∧ '\n' ∉ c) :
    parseCSVtext (exportCSVtext headers rows) = headers :: rows := by
  unfold parseCSVtext exportCSVtext
  have hlines : splitSep '\n' (joinSep '\n' ((headers :: rows).map (joinSep ';'))) =
      (headers :: rows).map (joinSep ';') := by
    apply splitSep_joinSep
    · simp
    · intro line hline
      obtain ⟨row, hrow, hrow2⟩ := List.mem_map.mp hline
      intro hnl
      rw [← hrow2] at hnl
      rcases mem_joinSep hnl with h1 | ⟨c, hc, hx⟩
      · exact absurd h1 (by decide)
      · exact (hclean row hrow c hc).2 hx
  rw [hlines, List.map_map]
  have : ∀ row ∈ headers :: rows, (splitSep ';' ∘ joinSep ';') row = row := by
    intro row hrow
    exact splitSep_joinSep ';' row (hne row hrow)
      (fun c hc => (hclean row hrow c hc).1)
  calc List.map (splitSep ';' ∘ joinSep ';') (headers :: rows)
      = List.map id (headers :: rows) := List.map_congr_left this
    _ = headers :: rows := List.map_id _

/-- Witness for the amended C2 at a concrete clean table. -/
theorem exportCSV_roundtrip_amended_witness :
    parseCSVtext
        (exportCSVtext ["Rank".toList, "Produto".toList]
          [["1".toList, "Soja".toList], ["2".toList, "Milho".toList]]) =
      ["Rank".toList, "Produto".toList] ::
        [["1".toList, "Soja".toList], ["2".toList, "Milho".toList]] :=
  exportCSV_roundtrip_amended _ _ (by decide) (by decide)

theorem prodFold_count : ∀ (rs : List SimaRec) (s : ProdAcc),
    (List.foldl prodUpd s rs).count = s.count + rs.length := by
  intro rs
  induction rs with
  | nil => intro s; simp
  | cons r rs ih =>
    intro s
    simp only [List.foldl_cons, List.length_cons]
    rw [ih]
    simp [prodUpd]
    omega

theorem prodFold_sum : ∀ (rs : List SimaRec) (s : ProdAcc),
    (List.foldl prodUpd s rs).sum =
      s.sum + ((rs.filter pmTruthy).map pmVal).sum := by
  intro rs
  induction rs with
  | nil => intro s; simp
  | cons r rs ih =>
    intro s
    simp only [List.foldl_cons, List.filter_cons]
    by_cases h : pmTruthy r
    · simp only [h, if_true, List.map_cons, List.sum_cons]
      rw [ih]
      simp [prodUpd, h]
      ring
    · simp only [h, Bool.false_eq_true, if_false]
      rw [ih]
      simp [prodUpd, h]

theorem p3Fold_count : ∀ (rs : List SimaRec) (s : P3ProdAcc),
    (List.foldl p3Upd s rs).count = s.count + rs.length := by
  intro rs
  induction rs with
  | nil => intro s; simp
  | cons r rs ih =>
    intro s
    simp only [List.foldl_cons, List.length_cons]
    rw [ih]
    simp [p3Upd]
    omega

theorem p3Fold_sum : ∀ (rs : List SimaRec) (s : P3ProdAcc),
    (List.foldl p3Upd s rs).sum =
      s.sum + ((rs.filter pmTruthy).map pmVal).sum := by
  intro rs
  induction rs with
  | nil => intro s; simp
  | cons r rs ih =>
    intro s
    simp only [List.foldl_cons, List.filter_cons]
    by_cases h : pmTruthy r
    · simp only [h, if_true, List.map_cons, List.sum_cons]
      rw [ih]
      simp [p3Upd, h]
      ring
    · simp only [h, Bool.false_eq_true, if_false]
      rw [ih]
      simp [p3Upd, h]

theorem prodKeyOf_eq_some {r : SimaRec} {p : String} :
    prodKeyOf r = some p ↔ r.p = p ∧ p ≠ "" := by
  unfold prodKeyOf
  by_cases h : r.p = ""
  · rw [if_pos h]
    constructor
    · intro h2
      exact Option.noConfusion h2
    · rintro ⟨h2, h3⟩
      rw [h] at h2
      exact absurd h2.symm h3
  · rw [if_neg h]
    constructor
    · intro h2
      have h3 : r.p = p := Option.some.inj h2
      exact ⟨h3, h3 ▸ h⟩
    · rintro ⟨h2, _⟩
      rw [h2]

theorem prodKeyOf_filter {p : String} (hp : p ≠ "") (l : List SimaRec) :
    l.filter (fun x => decide (prodKeyOf x = some p)) = prodRecs p l := by
  unfold prodRecs
  apply List.filter_congr
  intro r _
  have : (prodKeyOf r = some p) ↔ (r.p = p) := by
    rw [prodKeyOf_eq_some]
    exact ⟨fun h2 => h2.1, fun h2 => ⟨h2, hp⟩⟩
  exact decide_eq_decide.mpr this

theorem productStats_entry {p : String} {sAcc : ProdAcc} {l : List SimaRec}
    (h : (p, sAcc) ∈ productStats l) :
    p ≠ "" ∧ prodRecs p l ≠ [] ∧
      sAcc = List.foldl prodUpd initProd (prodRecs p l) := by
  have hnd := nodup_keysA_groupFold prodKeyOf initProd prodUpd l
  have hp : p ≠ "" := by
    have hmem : p ∈ keysA (productStats l) := by
      simpa [keysA] using List.mem_map_of_mem Prod.fst h
    obtain ⟨r, _, hr⟩ :=
      (mem_keysA_groupFold prodKeyOf initProd prodUpd p l).mp hmem
    exact (prodKeyOf_eq_some.mp hr).2
  have hlk : lookupA p (productStats l) = some sAcc :=
    lookupA_eq_of_mem hnd h
  rw [show productStats l = groupFold prodKeyOf initProd prodUpd l from rfl,
    lookupA_groupFold, prodKeyOf_filter hp l] at hlk
  refine ⟨hp, ?_, ?_⟩
  · intro he
    rw [he] at hlk
    simp at hlk
  · cases hcr : prodRecs p l with
    | nil => rw [hcr] at hlk; simp at hlk
    | cons r rest =>
      rw [hcr] at hlk
      simp at hlk
      rw [← hlk]
      rfl

theorem p3Stats_entry {p : String} {sAcc : P3ProdAcc} {l : List SimaRec}
    (h : (p, sAcc) ∈ p3Stats l) :
    p ≠ "" ∧ prodRecs p l ≠ [] ∧
      sAcc = List.foldl p3Upd initP3 (prodRecs p l) := by
  have hnd := nodup_keysA_groupFold prodKeyOf initP3 p3Upd l
  have hp : p ≠ "" := by
    have hmem : p ∈ keysA (p3Stats l) := by
      simpa [keysA] using List.mem_map_of_mem Prod.fst h
    obtain ⟨r, _, hr⟩ :=
      (mem_keysA_groupFold prodKeyOf initP3 p3Upd p l).mp hmem
    exact (prodKeyOf_eq_some.mp hr).2
  have hlk : lookupA p (p3Stats l) = some sAcc :=
    lookupA_eq_of_mem hnd h
  rw [show p3Stats l = groupFold prodKeyOf initP3 p3Upd l from rfl,
    lookupA_groupFold, prodKeyOf_filter hp l] at hlk
  refine ⟨hp, ?_, ?_⟩
  · intro he
    rw [he] at hlk
    simp at hlk
  · cases hcr : prodRecs p l with
    | nil => rw [hcr] at hlk; simp at hlk
    | cons r rest =>
      rw [hcr] at hlk
      simp at hlk
      rw [← hlk]
      rfl

theorem exists_of_prodRecs_ne {p : String} {l : List SimaRec}
    (h : prodRecs p l ≠ []) : ∃ r ∈ l, r.p = p := by
  cases hcr : prodRecs p l with
  | nil => exact absurd hcr h
  | cons r rest =>
    have hmem : r ∈ prodRecs p l := by
      rw [hcr]; exact List.mem_cons_self r rest
    obtain ⟨hrl, hrp⟩ := List.mem_filter.mp hmem
    exact ⟨r, hrl, of_decide_eq_true hrp⟩

theorem regDescTrans : ∀ (a b c : ProdEntry),
    decide (b.registros ≤ a.registros) = true →
    decide (c.registros ≤ b.registros) = true →
    decide (c.registros ≤ a.registros) = true := by
  intro a b c h1 h2
  simp at h1 h2 ⊢
  omega

theorem regDescTotal : ∀ (a b : ProdEntry),
    (decide (b.registros ≤ a.registros) ||
      decide (a.registros ≤ b.registros)) = true := by
  intro a b
  simp
  omega

theorem regDescTransP3 : ∀ (a b c : P3Entry),
    decide (b.registros ≤ a.registros) = true →
    decide (c.registros ≤ b.registros) = true →
    decide (c.registros ≤ a.registros) = true := by
  intro a b c h1 h2
  simp at h1 h2 ⊢
  omega

theorem regDescTotalP3 : ∀ (a b : P3Entry),
    (decide (b.registros ≤ a.registros) ||
      decide (a.registros ≤ b.registros)) = true := by
  intro a b
  simp
  omega

/-- C5: for every non-empty record list, `topProducts` has one entry per
distinct non-empty product, is sorted in non-increasing order of `registros`,
each entry's `registros` counts the product's records and its `media` is the
sum of the product's truthy `pm` values divided by that count; the `part_003`
variant additionally truncates the sorted list to at most 20 entries (its
entries satisfy the same per-entry equations). -/
theorem useAggregations_topProducts_spec (l : List SimaRec) (_hl : l ≠ []) :
    ((topProducts l).map (fun e => e.produto)).Nodup ∧
    (∀ p : String, p ∈ (topProducts l).map (fun e => e.produto) ↔
      p ≠ "" ∧ ∃ r ∈ l, r.p = p) ∧
    (topProducts l).Pairwise (fun e1 e2 => e2.registros ≤ e1.registros) ∧
    (∀ e ∈ topProducts l,
      e.registros = (prodRecs e.produto l).length ∧
      e.media = (prodPms e.produto l).sum /
        ((prodRecs e.produto l).length : ℚ)) ∧
    (topProductsP3 l).length ≤ 20 ∧
    (topProductsP3 l).Pairwise (fun e1 e2 => e2.registros ≤ e1.registros) ∧
    ((topProductsP3 l).map (fun e => e.produto)).Nodup ∧
    (∀ e ∈ topProductsP3 l,
      (e.produto ≠ "" ∧ ∃ r ∈ l, r.p = e.produto) ∧
      e.registros = (prodRecs e.produto l).length ∧
      e.media = (prodPms e.produto l).sum /
        ((prodRecs e.produto l).length : ℚ)) := by
  have hperm := List.mergeSort_perm
    ((productStats l).map (mkProdEntry (productByYear l)))
    (fun e1 e2 => decide (e2.registros ≤ e1.registros))
  have hmapkeys : ((productStats l).map (mkProdEntry (productByYear l))).map
      (fun e => e.produto) = keysA (productStats l) := by
    rw [List.map_map]
    rfl
  have hpermmap := hperm.map (fun e => e.produto)
  rw [hmapkeys] at hpermmap
  have hperm3 := List.mergeSort_perm ((p3Stats l).map mkP3Entry)
    (fun e1 e2 => decide (e2.registros ≤ e1.registros))
  have hmapkeys3 : ((p3Stats l).map mkP3Entry).map (fun e => e.produto) =
      keysA (p3Stats l) := by
    rw [List.map_map]
    rfl
  have hpermmap3 := hperm3.map (fun e => e.produto)
  rw [hmapkeys3] at hpermmap3
  have hentry : ∀ e ∈ topProducts l,
      e.registros = (prodRecs e.produto l).length ∧
      e.media = (prodPms e.produto l).sum /
        ((prodRecs e.produto l).length : ℚ) := by
    intro e he
    have he2 : e ∈ (productStats l).map (mkProdEntry (productByYear l)) :=
      hperm.mem_iff.mp he
    obtain ⟨kv, hkv, hkve⟩ := List.mem_map.mp he2
    have hkv2 : (kv.1, kv.2) ∈ productStats l := by
      rw [Prod.mk.eta]; exact hkv
    obtain ⟨hp, hne, hacc⟩ := productStats_entry hkv2
    have hcount : kv.2.count = (prodRecs kv.1 l).length := by
      rw [hacc, prodFold_count]
      simp [initProd]
    have hsum : kv.2.sum = (prodPms kv.1 l).sum := by
      rw [hacc, prodFold_sum]
      simp [initProd, prodPms]
    have hpos : 0 < kv.2.count := by
      rw [hcount]
      cases hcr : prodRecs kv.1 l with
      | nil => exact absurd hcr hne
      | cons r rest => simp
    subst hkve
    refine ⟨?_, ?_⟩
    · simpa [mkProdEntry] using hcount
    · simp only [mkProdEntry, if_pos hpos]
      rw [hsum, hcount]
  have hentry3 : ∀ e ∈ topProductsP3 l,
      (e.produto ≠ "" ∧ ∃ r ∈ l, r.p = e.produto) ∧
      e.registros = (prodRecs e.produto l).length ∧
      e.media = (prodPms e.produto l).sum /
        ((prodRecs e.produto l).length : ℚ) := by
    intro e he
    have he1 : e ∈ ((p3Stats l).map mkP3Entry).mergeSort
        (fun e1 e2 => decide (e2.registros ≤ e1.registros)) :=
      List.take_subset 20 _ he
    have he2 : e ∈ (p3Stats l).map mkP3Entry := hperm3.mem_iff.mp he1
    obtain ⟨kv, hkv, hkve⟩ := List.mem_map.mp he2
    have hkv2 : (kv.1, kv.2) ∈ p3Stats l := by
      rw [Prod.mk.eta]; exact hkv
    obtain ⟨hp, hne, hacc⟩ := p3Stats_entry hkv2
    have hcount : kv.2.count = (prodRecs kv.1 l).length := by
      rw [hacc, p3Fold_count]
      simp [initP3]
    have hsum : kv.2.sum = (prodPms kv.1 l).sum := by
      rw [hacc, p3Fold_sum]
      simp [initP3, prodPms]
    have hpos : 0 < kv.2.count := by
      rw [hcount]
      cases hcr : prodRecs kv.1 l with
      | nil => exact absurd hcr hne
      | cons r rest => simp
    subst hkve
    refine ⟨⟨hp, exists_of_prodRecs_ne hne⟩, ?_, ?_⟩
    · simpa [mkP3Entry] using hcount
    · simp only [mkP3Entry, if_pos hpos]
      rw [hsum, hcount]
  refine ⟨?_, ?_, ?_, hentry, ?_, ?_, ?_, hentry3⟩
  · exact hpermmap.nodup_iff.mpr
      (nodup_keysA_groupFold prodKeyOf initProd prodUpd l)
  · intro p
    constructor
    · intro hp
      obtain ⟨r, hrl, hr⟩ :=
        (mem_keysA_groupFold prodKeyOf initProd prodUpd p l).mp
          (hpermmap.mem_iff.mp hp)
      obtain ⟨hrp, hp2⟩ := prodKeyOf_eq_some.mp hr
      exact ⟨hp2, r, hrl, hrp⟩
    · rintro ⟨hp, r, hrl, hrp⟩
      exact hpermmap.mem_iff.mpr
        ((mem_keysA_groupFold prodKeyOf initProd prodUpd p l).mpr
          ⟨r, hrl, prodKeyOf_eq_some.mpr ⟨hrp, hp⟩⟩)
  · have hsorted := @List.sorted_mergeSort ProdEntry
      (fun e1 e2 => decide (e2.registros ≤ e1.registros))
      regDescTrans regDescTotal
      ((productStats l).map (mkProdEntry (productByYear l)))
    exact hsorted.imp (fun h => of_decide_eq_true h)
  · rw [show topProductsP3 l = (((p3Stats l).map mkP3Entry).mergeSort
        (fun e1 e2 => decide (e2.registros ≤ e1.registros))).take 20 from rfl,
      List.length_take]
    exact min_le_left _ _
  · have hsorted := @List.sorted_mergeSort P3Entry
      (fun e1 e2 => decide (e2.registros ≤ e1.registros))
      regDescTransP3 regDescTotalP3 ((p3Stats l).map mkP3Entry)
    exact List.Pairwise.sublist (List.take_sublist 20 _)
      (hsorted.imp (fun h => of_decide_eq_true h))
  · have hnd : ((((p3Stats l).map mkP3Entry).mergeSort
        (fun e1 e2 => decide (e2.registros ≤ e1.registros))).map
          (fun e => e.produto)).Nodup :=
      hpermmap3.nodup_iff.mpr
        (nodup_keysA_groupFold prodKeyOf initP3 p3Upd l)
    have hsub : ((topProductsP3 l).map (fun e => e.produto)).Sublist
        ((((p3Stats l).map mkP3Entry).mergeSort
          (fun e1 e2 => decide (e2.registros ≤ e1.registros))).map
            (fun e => e.produto)) :=
      List.Sublist.map (fun e : P3Entry => e.produto)
        (List.take_sublist 20 (((p3Stats l).map mkP3Entry).mergeSort
          (fun e1 e2 => decide (e2.registros ≤ e1.registros))))
    exact List.Nodup.sublist hsub hnd

/-- Witness for C5 at a concrete record list. -/
theorem useAggregations_topProducts_spec_witness :
    ∃ e ∈ topProducts c5ListW,
      e.produto = "Soja" ∧ e.registros = 2 ∧ e.media = 5 := by
  have h := useAggregations_topProducts_spec c5ListW (by decide)
  have hmem : "Soja" ∈ (topProducts c5ListW).map (fun e => e.produto) :=
    (h.2.1 "Soja").mpr ⟨by decide, c5Rec1W, by decide, by decide⟩
  obtain ⟨e, he, hep⟩ := List.mem_map.mp hmem
  obtain ⟨hreg, hmedia⟩ := h.2.2.2.1 e he
  refine ⟨e, he, hep, ?_, ?_⟩
  · rw [hreg, hep]
    decide
  · rw [hmedia, hep]
    rw [show prodPms "Soja" c5ListW = [10] from by decide]
    rw [show (prodRecs "Soja" c5ListW).length = 2 from by decide]
    norm_num

theorem monthFold_sum : ∀ (rs : List SimaRec) (s : SumCount),
    (List.foldl monthUpd s rs).sum = s.sum + (rs.map pmVal).sum := by
  intro rs
  induction rs with
  | nil => intro s; simp
  | cons r rs ih =>
    intro s
    simp only [List.foldl_cons, List.map_cons, List.sum_cons]
    rw [ih]
    simp [monthUpd]
    ring

theorem monthFold_count : ∀ (rs : List SimaRec) (s : SumCount),
    (List.foldl monthUpd s rs).count = s.count + rs.length := by
  intro rs
  induction rs with
  | nil => intro s; simp
  | cons r rs ih =>
    intro s
    simp only [List.foldl_cons, List.length_cons]
    rw [ih]
    simp [monthUpd]
    omega

theorem monthKeyOf_filter (key : String) (l : List SimaRec) :
    l.filter (fun x => decide (monthKeyOf x = some key)) =
      l.filter (fun x => decide (monthKey x = key)) := by
  apply List.filter_congr
  intro r _
  exact decide_eq_decide.mpr (by simp [monthKeyOf])

theorem monthlyData_entry {key : String} {sc : SumCount}
    {recs : List SimaRec} {name : String}
    (h : (key, sc) ∈ monthlyData recs name) :
    (sparkRecords recs name).filter (fun r => decide (monthKey r = key)) ≠ [] ∧
    sc = List.foldl monthUpd ⟨0, 0⟩
      ((sparkRecords recs name).filter (fun r => decide (monthKey r = key))) := by
  have hnd := nodup_keysA_groupFold monthKeyOf (⟨0, 0⟩ : SumCount) monthUpd
    (sparkRecords recs name)
  have hlk : lookupA key (monthlyData recs name) = some sc :=
    lookupA_eq_of_mem hnd h
  rw [show monthlyData recs name =
      groupFold monthKeyOf (⟨0, 0⟩ : SumCount) monthUpd
        (sparkRecords recs name) from rfl,
    lookupA_groupFold, monthKeyOf_filter] at hlk
  constructor
  · intro he
    rw [he] at hlk
    simp at hlk
  · cases hcr : (sparkRecords recs name).filter
        (fun r => decide (monthKey r = key)) with
    | nil => rw [hcr] at hlk; simp at hlk
    | cons r rest =>
      rw [hcr] at hlk
      simp at hlk
      rw [← hlk]
      rfl

theorem periodLeTrans : ∀ (a b c : SparkPoint),
    decide (a.period ≤ b.period) = true →
    decide (b.period ≤ c.period) = true →
    decide (a.period ≤ c.period) = true := by
  intro a b c h1 h2
  simp at h1 h2 ⊢
  exact le_trans h1 h2

theorem periodLeTotal : ∀ (a b : SparkPoint),
    (decide (a.period ≤ b.period) || decide (b.period ≤ a.period)) = true := by
  intro a b
  simp
  exact le_total _ _

/-- C6 (amended): `generateSparklineData` returns the per-month averages of
`pm` over the records with `p = productName` and `pm > 0` (one entry per
year-month key), sorted in ascending period order; for `limit ≥ 1` it keeps
only the last `limit` periods (the default is 12), while for `limit = 0` the
whole list is returned (JS `slice(-0)` is `slice(0)`); it returns `[]` when
`records` or `productName` is missing. -/
theorem generateSparklineData_spec (records : Option (List SimaRec))
    (name : String) (limit : Nat) :
    (records = none → generateSparklineData records name limit = []) ∧
    (name = "" → generateSparklineData records name limit = []) ∧
    (∀ recs, records = some recs → name ≠ "" →
      ((sparkPoints recs name).map (fun e => e.period)).Nodup ∧
      (∀ key : String,
        key ∈ (sparkPoints recs name).map (fun e => e.period) ↔
        ∃ r ∈ recs, r.p = name ∧ pmPos r = true ∧ monthKey r = key) ∧
      (sparkPoints recs name).Pairwise (fun x y => x.period ≤ y.period) ∧
      (∀ e ∈ sparkPoints recs name,
        e.value = (monthPms name e.period recs).sum /
          ((monthPms name e.period recs).length : ℚ)) ∧
      (1 ≤ limit → generateSparklineData records name limit =
        (sparkPoints recs name).drop
          ((sparkPoints recs name).length - limit)) ∧
      (limit = 0 → generateSparklineData records name limit =
        sparkPoints recs name)) := by
  refine ⟨?_, ?_, ?_⟩
  · rintro rfl
    rfl
  · rintro rfl
    cases records with
    | none => rfl
    | some recs => simp [generateSparklineData]
  · intro recs hrec hname
    subst hrec
    have hpermrec : (sparkRecords recs name).Perm (sparkSel name recs) :=
      List.mergeSort_perm (sparkSel name recs)
        (fun x y => decide (x.a < y.a ∨ (x.a = y.a ∧ x.m ≤ y.m)))
    have hpermpts : (sparkPoints recs name).Perm (sparkEntries recs name) :=
      List.mergeSort_perm (sparkEntries recs name)
        (fun x y => decide (x.period ≤ y.period))
    have hmapkeys : (sparkEntries recs name).map (fun e => e.period) =
        keysA (monthlyData recs name) := by
      rw [show sparkEntries recs name = (monthlyData recs name).map
          (fun kv => { period := kv.1, value := kv.2.sum / (kv.2.count : ℚ) })
        from rfl, List.map_map]
      rfl
    have hpermmap : ((sparkPoints recs name).map (fun e => e.period)).Perm
        (keysA (monthlyData recs name)) := by
      have h0 := hpermpts.map (fun e => e.period)
      rw [hmapkeys] at h0
      exact h0
    have hkeysnd : (keysA (monthlyData recs name)).Nodup :=
      nodup_keysA_groupFold monthKeyOf (⟨0, 0⟩ : SumCount) monthUpd
        (sparkRecords recs name)
    have hkeysmem : ∀ key : String, key ∈ keysA (monthlyData recs name) ↔
        ∃ x ∈ sparkRecords recs name, monthKeyOf x = some key :=
      fun key => mem_keysA_groupFold monthKeyOf (⟨0, 0⟩ : SumCount) monthUpd
        key (sparkRecords recs name)
    refine ⟨?_, ?_, ?_, ?_, ?_, ?_⟩
    · exact hpermmap.nodup_iff.mpr hkeysnd
    · intro key
      constructor
      · intro hk
        obtain ⟨x, hx, hkx⟩ := (hkeysmem key).mp (hpermmap.mem_iff.mp hk)
        have hx2 : x ∈ sparkSel name recs := hpermrec.mem_iff.mp hx
        obtain ⟨hxl, hq⟩ := List.mem_filter.mp hx2
        have hq2 : x.p = name ∧ pmPos x = true := by
          simpa [Bool.and_eq_true, decide_eq_true_iff] using hq
        exact ⟨x, hxl, hq2.1, hq2.2, Option.some.inj hkx⟩
      · rintro ⟨r, hrl, hrp, hrpos, hrkey⟩
        refine hpermmap.mem_iff.mpr ((hkeysmem key).mpr ⟨r, ?_, ?_⟩)
        · exact hpermrec.mem_iff.mpr
            (List.mem_filter.mpr ⟨hrl, by simp [hrp, hrpos]⟩)
        · simp [monthKeyOf, hrkey]
    · have hsorted := @List.sorted_mergeSort SparkPoint
        (fun x y => decide (x.period ≤ y.period)) periodLeTrans periodLeTotal
        (sparkEntries recs name)
      exact hsorted.imp (fun h => of_decide_eq_true h)
    · intro e he
      have he2 : e ∈ (monthlyData recs name).map
          (fun kv => ({ period := kv.1, value := kv.2.sum / (kv.2.count : ℚ) } :
            SparkPoint)) := hpermpts.mem_iff.mp he
      obtain ⟨kv, hkv, hkve⟩ := List.mem_map.mp he2
      have hkv2 : (kv.1, kv.2) ∈ monthlyData recs name := by
        rw [Prod.mk.eta]; exact hkv
      obtain ⟨hne, hacc⟩ := monthlyData_entry hkv2
      have hpermsel : ((sparkRecords recs name).filter
            (fun r => decide (monthKey r = kv.1))).Perm
          ((sparkSel name recs).filter
            (fun r => decide (monthKey r = kv.1))) :=
        hpermrec.filter (fun r => decide (monthKey r = kv.1))
      have hsum : kv.2.sum = (monthPms name kv.1 recs).sum := by
        rw [hacc, monthFold_sum]
        simp only [monthPms]
        rw [(hpermsel.map pmVal).sum_eq]
        simp
      have hcount : kv.2.count = (monthPms name kv.1 recs).length := by
        rw [hacc, monthFold_count]
        simp only [monthPms, List.length_map]
        rw [hpermsel.length_eq]
        simp
      have hpos : 0 < kv.2.count := by
        rw [hacc, monthFold_count]
        cases hcr : (sparkRecords recs name).filter
            (fun r => decide (monthKey r = kv.1)) with
        | nil => exact absurd hcr hne
        | cons r rest => simp
      subst hkve
      show kv.2.sum / (kv.2.count : ℚ) = _
      rw [hsum, hcount]
    · intro hlim
      have hne0 : limit ≠ 0 := by omega
      simp [generateSparklineData, hname, jsSliceNeg, hne0]
    · rintro rfl
      simp [generateSparklineData, hname, jsSliceNeg]

/-- C6 counterexample: at `limit = 0` the claim predicts the empty list (the
last 0 periods), but `slice(-0)` is `slice(0)`, so the code returns the whole
non-empty per-month series. -/
theorem generateSparklineData_limit0_cex :
    generateSparklineData (some [c6RecW]) "Soja" 0 =
      sparkPoints [c6RecW] "Soja" ∧
    sparkPoints [c6RecW] "Soja" ≠ [] := by
  constructor
  · rfl
  · intro h
    have hperm : (sparkPoints [c6RecW] "Soja").Perm
        (sparkEntries [c6RecW] "Soja") :=
      List.mergeSort_perm (sparkEntries [c6RecW] "Soja")
        (fun x y => decide (x.period ≤ y.period))
    rw [h] at hperm
    have h3 : sparkEntries [c6RecW] "Soja" = [] :=
      List.perm_nil.mp hperm.symm
    have h4 : monthlyData [c6RecW] "Soja" = [] :=
      List.map_eq_nil_iff.mp h3
    have hrecmem : c6RecW ∈ sparkRecords [c6RecW] "Soja" :=
      (List.mergeSort_perm (sparkSel "Soja" [c6RecW]) _).mem_iff.mpr (by decide)
    have hmem : monthKey c6RecW ∈ keysA (monthlyData [c6RecW] "Soja") :=
      (mem_keysA_groupFold monthKeyOf (⟨0, 0⟩ : SumCount) monthUpd
        (monthKey c6RecW) (sparkRecords [c6RecW] "Soja")).mpr
        ⟨c6RecW, hrecmem, rfl⟩
    rw [h4] at hmem
    simp [keysA] at hmem

/-- Witness for the amended C6 at concrete inputs: missing records give `[]`,
and with the default limit 12 the last (at most) 12 periods are kept. -/
theorem generateSparklineData_spec_witness :
    generateSparklineData none "Soja" 12 = [] ∧
    generateSparklineData (some [c6RecW]) "Soja" 12 =
      (sparkPoints [c6RecW] "Soja").drop
        ((sparkPoints [c6RecW] "Soja").length - 12) :=
  ⟨(generateSparklineData_spec none "Soja" 12).1 rfl,
   ((generateSparklineData_spec (some [c6RecW]) "Soja" 12).2.2 [c6RecW] rfl
      (by decide)).2.2.2.2.1 (by norm_num)⟩
